import Mathlib

/-!
A shallow embedding of the transition-extraction / graph-construction core of
the json2mermaid repository (src/utils/analyzers.py, src/utils/graph_analyzer.py,
src/utils/validators.py), together with theorems settling the frozen claims
about its specification.

Python values flowing through the analyzers are untyped JSON-ish data:
None, booleans, ints, floats (including NaN placeholders), strings, lists
and string-keyed dicts.  They are modelled by the inductive type `PyVal`.
Floats carry an `Option ℚ` payload: `none` encodes NaN, `some q` an ordinary
float (decimal rendering of ordinary floats is simplified to the rational's
`toString`; no claim observes the printed form of a non-NaN float).
Python dicts are modelled as association lists with the first binding of a
key authoritative (Python dicts have unique keys).

Code that can raise (`len` of a non-sized value, `re.findall` on a
non-string, attribute access on a non-dict, slicing a non-sliceable value)
is modelled in the `Except String` monad; the error message is not part of
the model, only the fact that an exception escapes.
-/

set_option maxHeartbeats 1000000

namespace Json2Mermaid

inductive PyVal : Type where
  | vNone : PyVal
  | vBool : Bool → PyVal
  | vInt : Int → PyVal
  | vFloat : Option ℚ → PyVal
  | vStr : String → PyVal
  | vList : List PyVal → PyVal
  | vDict : List (String × PyVal) → PyVal

mutual

def PyVal.beq : PyVal → PyVal → Bool
  | .vNone, .vNone => true
  | .vBool a, .vBool b => decide (a = b)
  | .vInt a, .vInt b => decide (a = b)
  | .vFloat a, .vFloat b => decide (a = b)
  | .vStr a, .vStr b => decide (a = b)
  | .vList xs, .vList ys => PyVal.beqList xs ys
  | .vDict xs, .vDict ys => PyVal.beqDict xs ys
  | _, _ => false

def PyVal.beqList : List PyVal → List PyVal → Bool
  | [], [] => true
  | x :: xs, y :: ys => PyVal.beq x y && PyVal.beqList xs ys
  | _, _ => false

def PyVal.beqDict : List (String × PyVal) → List (String × PyVal) → Bool
  | [], [] => true
  | (k, v) :: xs, (l, w) :: ys =>
      decide (k = l) && PyVal.beq v w && PyVal.beqDict xs ys
  | _, _ => false

end

theorem PyVal.sizeOf_snd_lt (p : String × PyVal) : sizeOf p.2 < sizeOf p := by
  obtain ⟨k, v⟩ := p
  show sizeOf v < sizeOf (k, v)
  have hs : sizeOf (k, v) = 1 + sizeOf k + sizeOf v := by simp
  omega

theorem PyVal.beq_sound : ∀ (n : Nat) (a b : PyVal), sizeOf a ≤ n →
    PyVal.beq a b = true → a = b := by
  intro n
  induction n with
  | zero =>
      intro a b ha
      exact absurd ha (by cases a <;> simp)
  | succ n ih =>
      have listAux : ∀ (xs ys : List PyVal),
          (∀ x ∈ xs, ∀ b, PyVal.beq x b = true → x = b) →
          PyVal.beqList xs ys = true → xs = ys := by
        intro xs
        induction xs with
        | nil =>
            intro ys _ h
            cases ys with
            | nil => rfl
            | cons y ys => exact Bool.noConfusion (h : false = true)
        | cons x xs ihx =>
            intro ys hmem h
            cases ys with
            | nil => exact Bool.noConfusion (h : false = true)
            | cons y ys =>
                have h' : (PyVal.beq x y && PyVal.beqList xs ys) = true := h
                rw [Bool.and_eq_true] at h'
                have h1 := hmem x (by simp) y h'.1
                have h2 := ihx ys (fun z hz b hb => hmem z (by simp [hz]) b hb) h'.2
                rw [h1, h2]
      have dictAux : ∀ (xs ys : List (String × PyVal)),
          (∀ p ∈ xs, ∀ b, PyVal.beq p.2 b = true → p.2 = b) →
          PyVal.beqDict xs ys = true → xs = ys := by
        intro xs
        induction xs with
        | nil =>
            intro ys _ h
            cases ys with
            | nil => rfl
            | cons y ys => exact Bool.noConfusion (h : false = true)
        | cons p xs ihx =>
            intro ys hmem h
            obtain ⟨k, v⟩ := p
            cases ys with
            | nil => exact Bool.noConfusion (h : false = true)
            | cons q ys =>
                obtain ⟨l, w⟩ := q
                have h' : (decide (k = l) && PyVal.beq v w && PyVal.beqDict xs ys)
                    = true := h
                rw [Bool.and_eq_true, Bool.and_eq_true] at h'
                have hk : k = l := of_decide_eq_true h'.1.1
                have hv : v = w := hmem (k, v) (by simp) w h'.1.2
                have h2 := ihx ys (fun z hz b hb => hmem z (by simp [hz]) b hb) h'.2
                rw [hk, hv, h2]
      intro a b ha hb
      cases a with
      | vNone =>
          cases b with
          | vNone => rfl
          | vBool b => exact Bool.noConfusion (hb : false = true)
          | vInt b => exact Bool.noConfusion (hb : false = true)
          | vFloat b => exact Bool.noConfusion (hb : false = true)
          | vStr b => exact Bool.noConfusion (hb : false = true)
          | vList b => exact Bool.noConfusion (hb : false = true)
          | vDict b => exact Bool.noConfusion (hb : false = true)
      | vBool a =>
          cases b with
          | vBool b => exact congrArg PyVal.vBool (of_decide_eq_true hb)
          | vNone => exact Bool.noConfusion (hb : false = true)
          | vInt b => exact Bool.noConfusion (hb : false = true)
          | vFloat b => exact Bool.noConfusion (hb : false = true)
          | vStr b => exact Bool.noConfusion (hb : false = true)
          | vList b => exact Bool.noConfusion (hb : false = true)
          | vDict b => exact Bool.noConfusion (hb : false = true)
      | vInt a =>
          cases b with
          | vInt b => exact congrArg PyVal.vInt (of_decide_eq_true hb)
          | vNone => exact Bool.noConfusion (hb : false = true)
          | vBool b => exact Bool.noConfusion (hb : false = true)
          | vFloat b => exact Bool.noConfusion (hb : false = true)
          | vStr b => exact Bool.noConfusion (hb : false = true)
          | vList b => exact Bool.noConfusion (hb : false = true)
          | vDict b => exact Bool.noConfusion (hb : false = true)
      | vFloat a =>
          cases b with
          | vFloat b => exact congrArg PyVal.vFloat (of_decide_eq_true hb)
          | vNone => exact Bool.noConfusion (hb : false = true)
          | vBool b => exact Bool.noConfusion (hb : false = true)
          | vInt b => exact Bool.noConfusion (hb : false = true)
          | vStr b => exact Bool.noConfusion (hb : false = true)
          | vList b => exact Bool.noConfusion (hb : false = true)
          | vDict b => exact Bool.noConfusion (hb : false = true)
      | vStr a =>
          cases b with
          | vStr b => exact congrArg PyVal.vStr (of_decide_eq_true hb)
          | vNone => exact Bool.noConfusion (hb : false = true)
          | vBool b => exact Bool.noConfusion (hb : false = true)
          | vInt b => exact Bool.noConfusion (hb : false = true)
          | vFloat b => exact Bool.noConfusion (hb : false = true)
          | vList b => exact Bool.noConfusion (hb : false = true)
          | vDict b => exact Bool.noConfusion (hb : false = true)
      | vList xs =>
          cases b with
          | vList ys =>
              have hb' : PyVal.beqList xs ys = true := hb
              have hsz : sizeOf (PyVal.vList xs) = 1 + sizeOf xs := by simp
              have hxs : sizeOf xs ≤ n := by omega
              exact congrArg PyVal.vList (listAux xs ys (fun x hx b hbx =>
                ih x b (by have := List.sizeOf_lt_of_mem hx; omega) hbx) hb')
          | vNone => exact Bool.noConfusion (hb : false = true)
          | vBool b => exact Bool.noConfusion (hb : false = true)
          | vInt b => exact Bool.noConfusion (hb : false = true)
          | vFloat b => exact Bool.noConfusion (hb : false = true)
          | vStr b => exact Bool.noConfusion (hb : false = true)
          | vDict b => exact Bool.noConfusion (hb : false = true)
      | vDict xs =>
          cases b with
          | vDict ys =>
              have hb' : PyVal.beqDict xs ys = true := hb
              have hsz : sizeOf (PyVal.vDict xs) = 1 + sizeOf xs := by simp
              have hxs : sizeOf xs ≤ n := by omega
              exact congrArg PyVal.vDict (dictAux xs ys (fun p hp b hbp =>
                ih p.2 b (by
                  have h1 := List.sizeOf_lt_of_mem hp
                  have h2 := PyVal.sizeOf_snd_lt p
                  omega) hbp) hb')
          | vNone => exact Bool.noConfusion (hb : false = true)
          | vBool b => exact Bool.noConfusion (hb : false = true)
          | vInt b => exact Bool.noConfusion (hb : false = true)
          | vFloat b => exact Bool.noConfusion (hb : false = true)
          | vStr b => exact Bool.noConfusion (hb : false = true)
          | vList b => exact Bool.noConfusion (hb : false = true)

theorem PyVal.beq_refl : ∀ (n : Nat) (a : PyVal), sizeOf a ≤ n →
    PyVal.beq a a = true := by
  intro n
  induction n with
  | zero =>
      intro a ha
      exact absurd ha (by cases a <;> simp)
  | succ n ih =>
      have listAux : ∀ (xs : List PyVal), (∀ x ∈ xs, PyVal.beq x x = true) →
          PyVal.beqList xs xs = true := by
        intro xs
        induction xs with
        | nil => intro _; rfl
        | cons x xs ihx =>
            intro hmem
            have h : (PyVal.beq x x && PyVal.beqList xs xs) = true := by
              rw [Bool.and_eq_true]
              exact ⟨hmem x (by simp), ihx (fun z hz => hmem z (by simp [hz]))⟩
            exact h
      have dictAux : ∀ (xs : List (String × PyVal)),
          (∀ p ∈ xs, PyVal.beq p.2 p.2 = true) → PyVal.beqDict xs xs = true := by
        intro xs
        induction xs with
        | nil => intro _; rfl
        | cons p xs ihx =>
            intro hmem
            obtain ⟨k, v⟩ := p
            have h : (decide (k = k) && PyVal.beq v v && PyVal.beqDict xs xs) = true := by
              rw [Bool.and_eq_true, Bool.and_eq_true]
              exact ⟨⟨decide_eq_true rfl, hmem (k, v) (by simp)⟩,
                ihx (fun z hz => hmem z (by simp [hz]))⟩
            exact h
      intro a ha
      cases a with
      | vNone => rfl
      | vBool x => exact decide_eq_true rfl
      | vInt x => exact decide_eq_true rfl
      | vFloat x => exact decide_eq_true rfl
      | vStr x => exact decide_eq_true rfl
      | vList xs =>
          have hsz : sizeOf (PyVal.vList xs) = 1 + sizeOf xs := by simp
          exact listAux xs (fun x hx =>
            ih x (by have := List.sizeOf_lt_of_mem hx; omega))
      | vDict xs =>
          have hsz : sizeOf (PyVal.vDict xs) = 1 + sizeOf xs := by simp
          exact dictAux xs (fun p hp =>
            ih p.2 (by
              have h1 := List.sizeOf_lt_of_mem hp
              have h2 := PyVal.sizeOf_snd_lt p
              omega))

instance : DecidableEq PyVal := fun a b =>
  decidable_of_iff (PyVal.beq a b = true)
    ⟨PyVal.beq_sound (sizeOf a) a b le_rfl,
     fun h => h ▸ PyVal.beq_refl (sizeOf a) a le_rfl⟩

namespace PyVal

/-- Python truthiness (`bool(v)`).  `vFloat none` is NaN, which is truthy. -/
def truthy : PyVal → Bool
  | vNone => false
  | vBool b => b
  | vInt n => n ≠ 0
  | vFloat none => true
  | vFloat (some q) => q ≠ 0
  | vStr s => s ≠ ""
  | vList xs => !xs.isEmpty
  | vDict d => !d.isEmpty

/-- Python `len(v)`; raises TypeError on values without a length. -/
def pyLen : PyVal → Except String Nat
  | vStr s => .ok s.length
  | vList xs => .ok xs.length
  | vDict d => .ok d.length
  | _ => .error "TypeError: object has no len()"

/-- Python `str(v)` for the values reaching f-strings in the analyzers.
NaN prints as "nan"; ordinary floats are rendered via the rational's
`toString` (simplified; no claim observes a non-NaN float's rendering). -/
def pyStr : PyVal → String
  | vNone => "None"
  | vBool true => "True"
  | vBool false => "False"
  | vInt n => toString n
  | vFloat none => "nan"
  | vFloat (some q) => toString q
  | vStr s => s
  | vList _ => "<list>"
  | vDict _ => "<dict>"

end PyVal

open PyVal

/-- An intent record: the entry list of a Python dict keyed by strings. -/
abbrev IntentRec := List (String × PyVal)

/-- Python `d.get(key, default)` on an association list. -/
def dictGet (d : List (String × PyVal)) (key : String) (default : PyVal) : PyVal :=
  match d.find? (fun kv => kv.1 = key) with
  | some kv => kv.2
  | none => default

/-- Python `d[key] = value`: replace the first binding of `key`, else append. -/
def dictSet (d : List (String × PyVal)) (key : String) (value : PyVal) :
    List (String × PyVal) :=
  if d.any (fun kv => kv.1 = key) then
    d.map (fun kv => if kv.1 = key then (key, value) else kv)
  else
    d ++ [(key, value)]

/-- `_safe_list` (analyzers.py lines 9-32) with the default `[]`:
NaN floats, None and every non-list value collapse to the default. -/
def safe_list (value : PyVal) : List PyVal :=
  match value with
  | vFloat none => []
  | vNone => []
  | vList xs => xs
  | _ => []

/-- `_safe_str` (analyzers.py lines 265-288) with the default `''`. -/
def safe_str (value : PyVal) : String :=
  match value with
  | vNone => ""
  | vFloat none => ""
  | vFloat (some q) => toString q
  | vStr s => s
  | v => pyStr v

/-- The `Transition` dataclass (dataclasses.py lines 20-26).  Source and
target ids are stored as the raw Python values the extractor puts there. -/
structure Transition : Type where
  source_id : PyVal
  target_id : PyVal
  transition_type : String
  condition : Option String
deriving DecidableEq

/-- Dedup key used by the aggregator: `(t.source_id, t.target_id, t.transition_type)`
(analyzers.py line 512). -/
def transKey (t : Transition) : PyVal × PyVal × String :=
  (t.source_id, t.target_id, t.transition_type)

/-- The deduplication loop of `first_pass` (analyzers.py lines 508-515),
with the `seen` set threaded explicitly. -/
def dedupGo (seen : List (PyVal × PyVal × String)) :
    List Transition → List Transition
  | [] => []
  | t :: ts =>
      if transKey t ∈ seen then dedupGo seen ts
      else t :: dedupGo (transKey t :: seen) ts

/-- Deduplication of the transition list as performed by `first_pass`:
first occurrence of each `(source_id, target_id, transition_type)` key wins,
order otherwise preserved. -/
def first_pass_dedup (ts : List Transition) : List Transition :=
  dedupGo [] ts

/-! ### Text-command scanning (analyzers.py `_extract_redirect_from_text`)

Python's `re.findall` over the five redirect patterns is embedded as a
left-to-right scanner.  Each pattern has the shape
`TOKEN\s+(\S+)` (optionally preceded by the `(?:^|\s)` boundary in the
`GOTO` case): at each position the engine tries to match the token
(case-insensitively when the source passes `re.IGNORECASE`), then a
nonempty greedy run of whitespace, then a nonempty greedy run of
non-whitespace which is the captured target; on success scanning resumes
after the match (non-overlapping matches), on failure at the next
character.  The scanners run on `List Char` with a fuel argument equal to
the input length; every successful match consumes at least two characters
and every failure one, so the fuel never runs out on the initial call. -/

/-- Python's regex `\s` over the ASCII range: space, tab, newline,
carriage return, vertical tab, form feed. -/
def isPySpace (c : Char) : Bool :=
  c == ' ' || c == '\t' || c == '\n' || c == '\r' ||
    c == Char.ofNat 11 || c == Char.ofNat 12

/-- Single-character match, case-insensitive when `ci` is true. -/
def charMatch (ci : Bool) (p c : Char) : Bool :=
  if ci then p.toLower == c.toLower else p == c

/-- Match the literal token at the head of `cs`; return the remainder. -/
def matchToken (ci : Bool) : List Char → List Char → Option (List Char)
  | [], cs => some cs
  | _ :: _, [] => none
  | t :: ts, c :: cs => if charMatch ci t c then matchToken ci ts cs else none

/-- Match `TOKEN\s+(\S+)` at the head of `cs`: the token, then a nonempty
whitespace run, then the nonempty captured non-whitespace run.  Returns
the captured target and the remainder after the match. -/
def matchAt (ci : Bool) (tok : List Char) (cs : List Char) :
    Option (List Char × List Char) :=
  match matchToken ci tok cs with
  | none => none
  | some rest =>
      let ws := rest.takeWhile isPySpace
      let rest2 := rest.dropWhile isPySpace
      if ws.isEmpty then none
      else
        let tgt := rest2.takeWhile (fun c => !isPySpace c)
        let rest3 := rest2.dropWhile (fun c => !isPySpace c)
        if tgt.isEmpty then none else some (tgt, rest3)

/-- `re.findall(TOKEN\s+(\S+), text)`: try a match at every position,
resuming after each successful match.  `fuel` starts at the input length. -/
def scanPlainGo (ci : Bool) (tok : List Char) : Nat → List Char → List (List Char)
  | 0, _ => []
  | _ + 1, [] => []
  | fuel + 1, c :: cs =>
      match matchAt ci tok (c :: cs) with
      | some (tgt, rest) => tgt :: scanPlainGo ci tok fuel rest
      | none => scanPlainGo ci tok fuel cs

def scanPlain (ci : Bool) (tok : List Char) (cs : List Char) : List (List Char) :=
  scanPlainGo ci tok cs.length cs

/-- Positions after the start for `(?:^|\s)TOKEN\s+(\S+)`: a match must
consume a whitespace character before the token. -/
def scanBoundaryGo (ci : Bool) (tok : List Char) : Nat → List Char → List (List Char)
  | 0, _ => []
  | _ + 1, [] => []
  | fuel + 1, c :: cs =>
      if isPySpace c then
        match matchAt ci tok cs with
        | some (tgt, rest) => tgt :: scanBoundaryGo ci tok fuel rest
        | none => scanBoundaryGo ci tok fuel cs
      else scanBoundaryGo ci tok fuel cs

/-- `re.findall((?:^|\s)TOKEN\s+(\S+), text)`: at position 0 the `^`
alternative allows a match without a preceding whitespace character. -/
def scanBoundary (ci : Bool) (tok : List Char) (cs : List Char) : List (List Char) :=
  match matchAt ci tok cs with
  | some (tgt, rest) => tgt :: scanBoundaryGo ci tok rest.length rest
  | none => scanBoundaryGo ci tok cs.length cs

/-- `_extract_redirect_from_text` (analyzers.py lines 34-68).  Pattern 1
(`REDIRECT_TO_INTENT`) is compiled without `re.IGNORECASE`; patterns 2-5
(`GOTO` with the `(?:^|\s)` boundary, `JUMP_TO`, `/goto`, `CALL_INTENT`)
are compiled with it.  A falsy `answer_text` short-circuits to `[]`;
a truthy non-string raises TypeError inside `re.findall`. -/
def extract_redirect_from_text (answer_text : PyVal) :
    Except String (List String) :=
  if answer_text.truthy = false then .ok []
  else
    match answer_text with
    | .vStr s =>
        let cs := s.toList
        .ok ((scanPlain false "REDIRECT_TO_INTENT".toList cs
            ++ scanBoundary true "GOTO".toList cs
            ++ scanPlain true "JUMP_TO".toList cs
            ++ scanPlain true "/goto".toList cs
            ++ scanPlain true "CALL_INTENT".toList cs).map String.mk)
    | _ => .error "TypeError: expected string or bytes-like object"

/-! ### Markdown button scanning (analyzers.py `_extract_buttons_from_markdown`) -/

/-- Python `str.strip()` over the whitespace characters above. -/
def pyStrip (s : String) : String :=
  String.mk (((s.toList.dropWhile isPySpace).reverse.dropWhile isPySpace).reverse)

/-- Match `\[([^\]]+)\]\(type:action\s+action:([^\)]+)\)` at the head of
`cs`; return ((label, action_id), remainder). -/
def matchButtonAt (cs : List Char) : Option ((List Char × List Char) × List Char) :=
  match cs with
  | '[' :: rest =>
      let label := rest.takeWhile (fun c => c ≠ ']')
      let rest1 := rest.dropWhile (fun c => c ≠ ']')
      if label.isEmpty then none
      else
        match rest1 with
        | ']' :: '(' :: rest2 =>
            match matchToken false "type:action".toList rest2 with
            | none => none
            | some rest3 =>
                let ws := rest3.takeWhile isPySpace
                let rest4 := rest3.dropWhile isPySpace
                if ws.isEmpty then none
                else
                  match matchToken false "action:".toList rest4 with
                  | none => none
                  | some rest5 =>
                      let aid := rest5.takeWhile (fun c => c ≠ ')')
                      let rest6 := rest5.dropWhile (fun c => c ≠ ')')
                      if aid.isEmpty then none
                      else
                        match rest6 with
                        | ')' :: rest7 => some ((label, aid), rest7)
                        | _ => none
        | _ => none
  | _ => none

def scanButtonsGo : Nat → List Char → List (List Char × List Char)
  | 0, _ => []
  | _ + 1, [] => []
  | fuel + 1, c :: cs =>
      match matchButtonAt (c :: cs) with
      | some (pair, rest) => pair :: scanButtonsGo fuel rest
      | none => scanButtonsGo fuel cs

/-- `_extract_buttons_from_markdown` (analyzers.py lines 71-90): one
`(text, action_id)` pair per markdown button match, both `.strip()`-ed.
A falsy `answer_text` short-circuits to `[]`; a truthy non-string raises
TypeError inside `re.findall`. -/
def extract_buttons_from_markdown (answer_text : PyVal) :
    Except String (List (String × String)) :=
  if answer_text.truthy = false then .ok []
  else
    match answer_text with
    | .vStr s =>
        let cs := s.toList
        .ok ((scanButtonsGo cs.length cs).map
          (fun p => (pyStrip (String.mk p.1), pyStrip (String.mk p.2))))
    | _ => .error "TypeError: expected string or bytes-like object"

/-! ### Slot-condition formatting (analyzers.py `_format_slot_condition`) -/

/-- Python slicing `values[:2]` as used on the `values` field: works on
lists and strings (string iteration yields one-character strings),
raises TypeError otherwise. -/
def pySlice2 : PyVal → Except String (List PyVal)
  | .vList l => .ok (l.take 2)
  | .vStr s => .ok ((s.toList.take 2).map (fun c => .vStr (String.mk [c])))
  | _ => .error "TypeError: value is not subscriptable"

/-- `_format_slot_condition` (analyzers.py lines 93-110).  Every element
of `slots` is accessed with `.get`, raising AttributeError on a non-dict
element; `values[:2]` raises on unsubscriptable truthy values. -/
def format_slot_condition (slots : List PyVal) : Except String String := do
  if slots.isEmpty then return ""
  let conditions ← slots.foldlM
    (fun (acc : List String) slot => do
      match slot with
      | PyVal.vDict d =>
          let slot_id := dictGet d "slot_id" (.vStr "")
          let values := dictGet d "values" (.vList [])
          if slot_id.truthy && values.truthy then
            let sliced ← pySlice2 values
            let val_str := String.intercalate "," (sliced.map pyStr)
            let n ← values.pyLen
            let val_str := if n > 2 then val_str ++ "..." else val_str
            pure (acc ++ [pyStr slot_id ++ "=" ++ val_str])
          else
            pure acc
      | _ => .error "AttributeError: slot has no attribute get")
    ([] : List String)
  if conditions.isEmpty then return ""
  return String.intercalate " AND " conditions

/-! ### Transition extraction (analyzers.py `_extract_transitions`) -/

/-- The recurring `if field and isinstance(field, str): append Transition`
pattern of `_extract_transitions`: a truthy string field value yields one
transition, anything else none. -/
def strFieldTransition (intent_id : PyVal) (v : PyVal) (ttype : String)
    (cond : Option String) : List Transition :=
  match v with
  | PyVal.vStr s => if s ≠ "" then [⟨intent_id, .vStr s, ttype, cond⟩] else []
  | _ => []

/-- The body of the `for answer in answers` loop of `_extract_transitions`
(analyzers.py lines 140-221): answer-level redirect, text redirects,
markdown buttons, structured buttons, actions — in source order.
A non-dict answer is skipped (`continue`). -/
def answerTransitions (intent_id : PyVal) (answer : PyVal) :
    Except String (List Transition) :=
  match answer with
  | PyVal.vDict d => do
      let answer_text := dictGet d "answer" (.vStr "")
      let slots := safe_list (dictGet d "slots" (.vList []))
      let slot_condition ← format_slot_condition slots
      let condOpt : Option String :=
        if slot_condition ≠ "" then some slot_condition else none
      let answer_redirect := dictGet d "redirect_to" .vNone
      let t1 := strFieldTransition intent_id answer_redirect "answer_redirect" condOpt
      let text_redirects ← extract_redirect_from_text answer_text
      let t2 := text_redirects.map
        (fun tgt => Transition.mk intent_id (.vStr tgt) "text_redirect" condOpt)
      let buttons_md ← extract_buttons_from_markdown answer_text
      let t3 := buttons_md.map
        (fun btn => Transition.mk intent_id (.vStr btn.2) "button_action"
          (some ("button: " ++ btn.1)))
      let buttons := safe_list (dictGet d "buttons" (.vList []))
      let t4 := buttons.foldl
        (fun acc button =>
          match button with
          | PyVal.vDict bd =>
              match dictGet bd "action" (.vDict []) with
              | PyVal.vDict ad =>
                  let action_type := dictGet ad "type" (.vStr "")
                  if action_type = PyVal.vStr "REDIRECT_TO_INTENT" then
                    let target_id := dictGet ad "intent_id" (.vStr "")
                    if target_id.truthy then
                      acc ++ [⟨intent_id, target_id, "button_redirect", none⟩]
                    else acc
                  else acc
              | _ => acc
          | _ => acc)
        ([] : List Transition)
      let actions := safe_list (dictGet d "actions" (.vList []))
      let t5 := actions.foldl
        (fun acc action =>
          match action with
          | PyVal.vDict ad =>
              let action_id := dictGet ad "action_id" (.vStr "")
              let action_text := dictGet ad "action_text" (.vStr "")
              if action_id.truthy then
                acc ++ [⟨intent_id, action_id, "action_redirect",
                  if action_text.truthy then some ("action: " ++ pyStr action_text)
                  else none⟩]
              else acc
          | _ => acc)
        ([] : List Transition)
      return t1 ++ t2 ++ t3 ++ t4 ++ t5
  | _ => pure []

/-- `_extract_transitions` (analyzers.py lines 113-262). -/
def extract_transitions (intent : IntentRec) : Except String (List Transition) := do
  let intent_id := dictGet intent "intent_id" (.vStr "unknown")
  let redirect_to := dictGet intent "redirect_to" .vNone
  let t1 := strFieldTransition intent_id redirect_to "direct_redirect" none
  let fallback_intent := dictGet intent "fallback_intent" .vNone
  let t2 := strFieldTransition intent_id fallback_intent "fallback" none
  let answers := safe_list (dictGet intent "answers" (.vList []))
  let t3 ← answers.foldlM
    (fun (acc : List Transition) a => do
      let ts ← answerTransitions intent_id a
      pure (acc ++ ts))
    ([] : List Transition)
  let slot_fillers := safe_list (dictGet intent "slot_fillers" (.vList []))
  let t4 := slot_fillers.foldl
    (fun acc filler =>
      match filler with
      | PyVal.vDict fd =>
          let conditions := safe_list (dictGet fd "conditions" (.vList []))
          conditions.foldl
            (fun acc2 condition =>
              match condition with
              | PyVal.vDict cd =>
                  acc2
                    ++ strFieldTransition intent_id (dictGet cd "then_redirect" .vNone)
                        "conditional_redirect" none
                    ++ strFieldTransition intent_id (dictGet cd "else_redirect" .vNone)
                        "conditional_redirect" none
              | _ => acc2)
            acc
      | _ => acc)
    ([] : List Transition)
  let matched := dictGet intent "matched_intent_id" .vNone
  let t5 := strFieldTransition intent_id matched "intent_match" none
  return t1 ++ t2 ++ t3 ++ t4 ++ t5

/-! ### Identifier resolution (analyzers.py `build_intent_mappings`,
`resolve_target_id`) -/

/-- Lookup in a string-keyed association list (Python dict access). -/
def assocFind? {α : Type} (m : List (String × α)) (key : String) : Option α :=
  match m.find? (fun kv => kv.1 = key) with
  | some kv => some kv.2
  | none => none

/-- Python `m[key] = value`: replace the binding in place, else append. -/
def assocSet {α : Type} (m : List (String × α)) (key : String) (value : α) :
    List (String × α) :=
  if m.any (fun kv => kv.1 = key) then
    m.map (fun kv => if kv.1 = key then (key, value) else kv)
  else
    m ++ [(key, value)]

/-- Python `s.add(x)` on a set modelled as a duplicate-free list. -/
def insertNewStr (x : String) (l : List String) : List String :=
  if x ∈ l then l else l ++ [x]

/-- The mappings dict built by `build_intent_mappings`
(analyzers.py lines 304-311). -/
structure Mappings : Type where
  by_intent_id : List (String × IntentRec)
  by_symbol_code : List (String × IntentRec)
  symbol_to_intent : List (String × String)
  action_to_intent : List (String × String)
  all_intent_ids : List String
  all_symbol_codes : List String

/-- `build_intent_mappings` (analyzers.py lines 291-342). -/
def build_intent_mappings (intents : List IntentRec) : Mappings :=
  intents.foldl
    (fun m intent =>
      let intent_id := safe_str (dictGet intent "intent_id" .vNone)
      let symbol_code := safe_str (dictGet intent "symbol_code" .vNone)
      let m :=
        if intent_id ≠ "" then
          { m with
            by_intent_id := assocSet m.by_intent_id intent_id intent,
            all_intent_ids := insertNewStr intent_id m.all_intent_ids }
        else m
      let m :=
        if symbol_code ≠ "" then
          let m' :=
            { m with
              by_symbol_code := assocSet m.by_symbol_code symbol_code intent,
              all_symbol_codes := insertNewStr symbol_code m.all_symbol_codes }
          if intent_id ≠ "" then
            { m' with symbol_to_intent := assocSet m'.symbol_to_intent symbol_code intent_id }
          else m'
        else m
      let answers := safe_list (dictGet intent "answers" (.vList []))
      answers.foldl
        (fun m2 answer =>
          match answer with
          | PyVal.vDict ad =>
              let actions := safe_list (dictGet ad "actions" (.vList []))
              actions.foldl
                (fun m3 action =>
                  match action with
                  | PyVal.vDict acd =>
                      let action_id := dictGet acd "action_id" (.vStr "")
                      if action_id.truthy && (intent_id ≠ "") then
                        if action_id = PyVal.vStr symbol_code then
                          { m3 with action_to_intent :=
                              assocSet m3.action_to_intent symbol_code intent_id }
                        else m3
                      else m3
                  | _ => m3)
                m2
          | _ => m2)
        m)
    ⟨[], [], [], [], [], []⟩

/-- `resolve_target_id` (analyzers.py lines 345-366): intent_id, then
symbol_code, then action_id; unresolved targets come back unchanged. -/
def resolve_target_id (target : String) (mappings : Mappings) : String :=
  if target = "" then target
  else if target ∈ mappings.all_intent_ids then target
  else
    match assocFind? mappings.symbol_to_intent target with
    | some i => i
    | none =>
        match assocFind? mappings.action_to_intent target with
        | some i => i
        | none => target

/-! ### Graph construction (graph_analyzer.py `build_graph`)

Python `set` iteration order is unspecified; sets are modelled as
duplicate-free lists in insertion order, and the theorems rely only on
membership. -/

/-- Value of `graph['node_info'][intent_id]` (graph_analyzer.py lines 27-32). -/
structure NodeInfo : Type where
  record_type : PyVal
  title : PyVal
  has_inputs : Bool
  has_answers : Bool
deriving DecidableEq

/-- The graph dict built by `build_graph`. -/
structure Graph : Type where
  nodes : List PyVal
  edges : List (PyVal × PyVal)
  entry_points : List PyVal
  dead_ends : List PyVal
  node_info : List (PyVal × NodeInfo)
deriving DecidableEq

/-- Python hashability: lists and dicts are unhashable, so `set.add`,
set membership tests and dict-key assignment raise TypeError on them;
`None`, booleans, numbers and strings are hashable. -/
def hashable : PyVal → Bool
  | .vList _ => false
  | .vDict _ => false
  | _ => true

/-- Python `set.add` on a set of values. -/
def insertNew (x : PyVal) (l : List PyVal) : List PyVal :=
  if x ∈ l then l else l ++ [x]

/-- Python `set.add` on the edge set. -/
def insertEdge (e : PyVal × PyVal) (l : List (PyVal × PyVal)) :
    List (PyVal × PyVal) :=
  if e ∈ l then l else l ++ [e]

/-- Python `d[key] = value` with a PyVal key (the `node_info` dict). -/
def infoSet (m : List (PyVal × NodeInfo)) (key : PyVal) (value : NodeInfo) :
    List (PyVal × NodeInfo) :=
  if m.any (fun kv => kv.1 = key) then
    m.map (fun kv => if kv.1 = key then (key, value) else kv)
  else
    m ++ [(key, value)]

/-- One iteration of the node-collection loop of `build_graph`
(graph_analyzer.py lines 22-36), threading `(nodes, node_info,
entry_points)`.  `graph['nodes'].add(intent_id)` at line 26 hashes
`intent_id` and raises TypeError on an unhashable (list or dict) value —
before the `len()` calls at lines 30-31, which raise on values without a
length. -/
def collectNode (st : List PyVal × List (PyVal × NodeInfo) × List PyVal)
    (intent : IntentRec) :
    Except String (List PyVal × List (PyVal × NodeInfo) × List PyVal) :=
  let (nodes, ninfo, entries) := st
  let intent_id := dictGet intent "intent_id" .vNone
  let record_type := dictGet intent "record_type" (.vStr "")
  match hashable intent_id with
  | false => .error "TypeError: unhashable type"
  | true => do
      let nodes := insertNew intent_id nodes
      let nInputs ← (dictGet intent "inputs" (.vList [])).pyLen
      let nAnswers ← (dictGet intent "answers" (.vList [])).pyLen
      let ninfo := infoSet ninfo intent_id
        ⟨record_type, dictGet intent "title" (.vStr ""), nInputs > 0, nAnswers > 0⟩
      let entries :=
        if record_type = PyVal.vStr "cc_regexp_main" ∧ nInputs > 0 then
          entries ++ [intent_id]
        else entries
      pure (nodes, ninfo, entries)

/-- One iteration of the `redirect_map` edge loop of `build_graph`
(graph_analyzer.py lines 41-44): only the target is tested against
`nodes`. -/
def addRedirectEdges (nodes : List PyVal) (es : List (PyVal × PyVal))
    (kv : PyVal × List PyVal) : List (PyVal × PyVal) :=
  kv.2.foldl
    (fun es2 target =>
      if target ∈ nodes then insertEdge (kv.1, target) es2 else es2)
    es

/-- One iteration of the transitions edge loop of `build_graph`
(graph_analyzer.py lines 47-50): both endpoints are tested. -/
def addTransitionEdge (nodes : List PyVal) (es : List (PyVal × PyVal))
    (st : PyVal × PyVal) : List (PyVal × PyVal) :=
  if st.1 ∈ nodes ∧ st.2 ∈ nodes then insertEdge (st.1, st.2) es else es

/-- `build_graph` (graph_analyzer.py lines 7-58).  In the node loop,
`set.add`/dict-key assignment raise TypeError on an unhashable
`intent_id` and `len(...)` raises on values without a length; the Except
monad surfaces both.  The edge loops hash only the `redirect_map` and
`transitions` endpoints, which the declared `Dict[str, List[str]]` /
`Tuple[str, str]` interface keeps hashable, so they are modelled as
total folds; the sufficiency theorem nonetheless hypothesises their
hashability explicitly. -/
def build_graph (intents : List IntentRec)
    (redirect_map : List (PyVal × List PyVal))
    (transitions : List (PyVal × PyVal)) : Except String Graph := do
  let (nodes, node_info, entry_points) ← intents.foldlM collectNode ([], [], [])
  let edgeSet1 := redirect_map.foldl (addRedirectEdges nodes) []
  let edgeSet := transitions.foldl (addTransitionEdge nodes) edgeSet1
  let nodes_with_outgoing := edgeSet.map Prod.fst
  let dead_ends := nodes.filter (fun n => n ∉ nodes_with_outgoing)
  return ⟨nodes, edgeSet, entry_points, dead_ends, node_info⟩

/-! ### Cycle detection (validators.py `detect_circular_redirects`)

The recursive Python `dfs` is embedded with a fuel argument.  A frame
either returns without recursing or adds a node not yet in `visited`
before recursing, so the recursion depth is bounded by the number of
distinct vertices; `detect_circular_redirects` passes fuel exceeding
that bound, so the fuel never runs out. -/

/-- `redirect_map.get(node, [])`. -/
def adjGetS (adj : List (String × List String)) (k : String) : List String :=
  match adj.find? (fun kv => kv.1 = k) with
  | some kv => kv.2
  | none => []

/-- The inner `dfs` of `detect_circular_redirects` (validators.py lines
188-203).  `path` is passed by value (`path.copy()` in the source);
`visited` and `cycles` are threaded as state. -/
def cdDfs (adj : List (String × List String)) :
    Nat → String → List String → List String × List (List String) →
    List String × List (List String)
  | 0, _, _, st => st
  | fuel + 1, node, path, (visited, cycles) =>
      if node ∈ path then
        let cycle := path.drop (path.indexOf node) ++ [node]
        (visited, if cycle ∈ cycles then cycles else cycles ++ [cycle])
      else if node ∈ visited then (visited, cycles)
      else
        (adjGetS adj node).foldl
          (fun st target => cdDfs adj fuel target (path ++ [node]) st)
          (visited ++ [node], cycles)

/-- `detect_circular_redirects` (validators.py lines 184-208): one DFS per
key of the adjacency map, with a fresh `visited` set and a fresh empty
path per start node; `cycles` accumulates across starts, deduplicated
only by exact list equality (`if cycle not in cycles`). -/
def detect_circular_redirects (redirect_map : List (String × List String)) :
    List (List String) :=
  let fuel := redirect_map.length + (redirect_map.map (fun kv => kv.2.length)).sum + 1
  redirect_map.foldl
    (fun cycles kv => (cdDfs redirect_map fuel kv.1 [] ([], cycles)).2)
    []

/-! ### Connected components (graph_analyzer.py `find_isolated_subgraphs`)

The recursive Python `dfs` is embedded with a fuel argument; the fuel
chosen by `find_isolated_subgraphs` exceeds the total work bound, so on
actual runs it never runs out.  The claim theorems below hold for every
fuel value. -/

/-- Add `t` to `adj[s]` (a `defaultdict(set)` in the source). -/
def adjAdd (adj : List (PyVal × List PyVal)) (s t : PyVal) :
    List (PyVal × List PyVal) :=
  match adj.find? (fun kv => kv.1 = s) with
  | some _ =>
      adj.map (fun kv => if kv.1 = s then (kv.1, insertNew t kv.2) else kv)
  | none => adj ++ [(s, [t])]

/-- The undirected adjacency built in lines 102-105. -/
def undirectedAdj (edges : List (PyVal × PyVal)) : List (PyVal × List PyVal) :=
  edges.foldl (fun adj e => adjAdd (adjAdd adj e.1 e.2) e.2 e.1) []

/-- `adj.get(node, [])`. -/
def adjGetP (adj : List (PyVal × List PyVal)) (k : PyVal) : List PyVal :=
  match adj.find? (fun kv => kv.1 = k) with
  | some kv => kv.2
  | none => []

mutual

/-- The inner `dfs` of `find_isolated_subgraphs` (graph_analyzer.py lines
110-115): add the node to `visited` and to the component, then recurse
into unvisited neighbours. -/
def isoDfs (adj : List (PyVal × List PyVal)) :
    Nat → PyVal → List PyVal → List PyVal → List PyVal × List PyVal
  | 0, _, visited, comp => (visited, comp)
  | fuel + 1, node, visited, comp =>
      isoDfsList adj fuel (adjGetP adj node) (insertNew node visited) (insertNew node comp)

/-- The `for neighbor in adj.get(node, [])` loop of the inner `dfs`. -/
def isoDfsList (adj : List (PyVal × List PyVal)) :
    Nat → List PyVal → List PyVal → List PyVal → List PyVal × List PyVal
  | 0, _, visited, comp => (visited, comp)
  | _ + 1, [], visited, comp => (visited, comp)
  | fuel + 1, n :: ns, visited, comp =>
      if n ∈ visited then isoDfsList adj fuel ns visited comp
      else
        let vc := isoDfs adj fuel n visited comp
        isoDfsList adj fuel ns vc.1 vc.2

end

/-- `find_isolated_subgraphs` (graph_analyzer.py lines 96-123): one DFS
per unvisited node of `graph['nodes']`, collecting one component per
start. -/
def isoStep (adj : List (PyVal × List PyVal)) (fuel : Nat)
    (st : List PyVal × List (List PyVal)) (node : PyVal) :
    List PyVal × List (List PyVal) :=
  if node ∈ st.1 then st
  else
    let vc := isoDfs adj fuel node st.1 []
    (vc.1, st.2 ++ [vc.2])

def find_isolated_subgraphs (graph : Graph) : List (List PyVal) :=
  let adj := undirectedAdj graph.edges
  let v := graph.nodes.length + 2 * graph.edges.length + 1
  (graph.nodes.foldl (isoStep adj (v * v)) ([], [])).2

/-- `dedupGo` only consults membership of `seen`, not its order. -/
theorem dedupGo_congr (seen seen' : List (PyVal × PyVal × String))
    (h : ∀ k, k ∈ seen ↔ k ∈ seen') (ts : List Transition) :
    dedupGo seen ts = dedupGo seen' ts := by
  induction ts generalizing seen seen' with
  | nil => rfl
  | cons t ts ih =>
      simp only [dedupGo]
      by_cases hk : transKey t ∈ seen
      · rw [if_pos hk, if_pos ((h _).1 hk)]
        exact ih seen seen' h
      · rw [if_neg hk, if_neg (fun hx => hk ((h _).2 hx))]
        refine congrArg _ (ih _ _ ?_)
        intro k
        simp only [List.mem_cons]
        exact or_congr Iff.rfl (h k)

/-- Keys already seen are filtered out up front. -/
theorem dedupGo_filter (k : PyVal × PyVal × String)
    (ts : List Transition) (seen : List (PyVal × PyVal × String)) :
    dedupGo (k :: seen) ts
      = dedupGo seen (ts.filter (fun u => decide (transKey u ≠ k))) := by
  induction ts generalizing seen with
  | nil => rfl
  | cons t ts ih =>
      by_cases hk : transKey t = k
      · have h1 : dedupGo (k :: seen) (t :: ts) = dedupGo (k :: seen) ts := by
          simp [dedupGo, hk]
        have h2 : (t :: ts).filter (fun u => decide (transKey u ≠ k))
            = ts.filter (fun u => decide (transKey u ≠ k)) := by
          simp [List.filter_cons, hk]
        rw [h1, h2, ih seen]
      · have h2 : (t :: ts).filter (fun u => decide (transKey u ≠ k))
            = t :: ts.filter (fun u => decide (transKey u ≠ k)) := by
          simp [List.filter_cons, hk]
        rw [h2]
        by_cases hs : transKey t ∈ seen
        · have h1 : dedupGo (k :: seen) (t :: ts) = dedupGo (k :: seen) ts := by
            simp [dedupGo, List.mem_cons, hs]
          have h3 : dedupGo seen (t :: ts.filter (fun u => decide (transKey u ≠ k)))
              = dedupGo seen (ts.filter (fun u => decide (transKey u ≠ k))) := by
            simp [dedupGo, hs]
          rw [h1, h3, ih seen]
        · have hks : transKey t ∉ k :: seen := by
            simp [List.mem_cons, hk, hs]
          have h1 : dedupGo (k :: seen) (t :: ts)
              = t :: dedupGo (transKey t :: k :: seen) ts := by
            simp [dedupGo, hks]
          have h3 : dedupGo seen (t :: ts.filter (fun u => decide (transKey u ≠ k)))
              = t :: dedupGo (transKey t :: seen)
                  (ts.filter (fun u => decide (transKey u ≠ k))) := by
            simp [dedupGo, hs]
          rw [h1, h3,
            dedupGo_congr (transKey t :: k :: seen) (k :: transKey t :: seen)
              (by intro x; simp only [List.mem_cons]; tauto),
            ih (transKey t :: seen)]

/-- Running the dedup loop again over its own output changes nothing. -/
theorem dedupGo_self (ts : List Transition) (seen : List (PyVal × PyVal × String)) :
    dedupGo seen (dedupGo seen ts) = dedupGo seen ts := by
  induction ts generalizing seen with
  | nil => rfl
  | cons t ts ih =>
      by_cases hk : transKey t ∈ seen
      · have h1 : dedupGo seen (t :: ts) = dedupGo seen ts := by
          simp [dedupGo, hk]
        rw [h1, ih seen]
      · have h1 : dedupGo seen (t :: ts) = t :: dedupGo (transKey t :: seen) ts := by
          simp [dedupGo, hk]
        rw [h1]
        have h2 : dedupGo seen (t :: dedupGo (transKey t :: seen) ts)
            = t :: dedupGo (transKey t :: seen) (dedupGo (transKey t :: seen) ts) := by
          simp [dedupGo, hk]
        rw [h2, ih (transKey t :: seen)]


/-- Values on which Python `len()` succeeds (strings, lists, dicts). -/
def hasLen : PyVal → Bool
  | .vStr _ => true
  | .vList _ => true
  | .vDict _ => true
  | _ => false

/-- The two-intent corpus used for the identifier-resolution claims:
intent `A`, and intent `B` carrying symbol code `S`. -/
def corpusAB : List IntentRec :=
  [[("intent_id", PyVal.vStr "A")],
   [("intent_id", PyVal.vStr "B"), ("symbol_code", PyVal.vStr "S")]]

/-- Malformed-as-list values: everything except an actual list
(None, NaN and other floats, strings, ints, bools, dicts). -/
def notAList : PyVal → Bool
  | .vList _ => false
  | _ => true

/-! ## Claim theorems -/

/-- C1: the claim (and the repository's own test
`test_detect_circular_redirects`) requires the cycle detector to
deduplicate candidate cycles by node set, returning exactly one cycle for
the adjacency map `{"1":["2"], "2":["3"], "3":["1"]}`.  The code
deduplicates only by exact list equality (`if cycle not in cycles`), so
it returns three rotations of the same structural cycle. -/
theorem cycle_detector_reports_each_rotation :
    detect_circular_redirects [("1", ["2"]), ("2", ["3"]), ("3", ["1"])]
      = [["1", "2", "3", "1"], ["2", "3", "1", "2"], ["3", "1", "2", "3"]]
    ∧ (detect_circular_redirects [("1", ["2"]), ("2", ["3"]), ("3", ["1"])]).length ≠ 1 := by
  constructor
  · rfl
  · decide

/-- C2, counterexample: the Identifier Resolver maps the symbol code `S`
to intent `B`, which is a node — yet `build_graph` adds no edge for the
transition `(A, S)`, because it tests the raw target against `nodes`
without ever calling `resolve_target_id`. -/
theorem build_graph_does_not_resolve_targets :
    resolve_target_id "S" (build_intent_mappings corpusAB) = "B"
    ∧ (build_graph corpusAB [] [(PyVal.vStr "A", PyVal.vStr "S")]).toOption.map
        (fun g => (decide (PyVal.vStr "B" ∈ g.nodes), g.edges))
      = some (true, []) := by
  constructor
  · rfl
  · rfl

/-- C3, counterexample: an edge built from `redirect_map` only has its
target checked against `nodes`; the source `X` becomes an edge endpoint
without being a node. -/
theorem build_graph_edge_source_not_node :
    (build_graph [[("intent_id", PyVal.vStr "B")]]
        [(PyVal.vStr "X", [PyVal.vStr "B"])] []).toOption.map
        (fun g => (g.edges, g.nodes, decide (PyVal.vStr "X" ∈ g.nodes)))
      = some ([(PyVal.vStr "X", PyVal.vStr "B")], [PyVal.vStr "B"], false) := by
  rfl

/-- C4, counterexample: an intent whose `inputs` field is present but
null makes `build_graph` evaluate `len(None)` and raise TypeError. -/
theorem build_graph_raises_on_null_inputs :
    (build_graph [[("intent_id", PyVal.vStr "A"), ("inputs", PyVal.vNone)]] [] []).isOk
      = false := by
  rfl

/-- C5, counterexample: the `REDIRECT_TO_INTENT` pattern is compiled
without `re.IGNORECASE`, so a lowercase `redirect_to_intent X` command
yields no `text_redirect` transition at all. -/
theorem lowercase_redirect_to_intent_not_extracted :
    extract_transitions [("intent_id", PyVal.vStr "A"),
        ("answers", PyVal.vList [PyVal.vDict [("answer",
          PyVal.vStr "redirect_to_intent X")]])]
      = .ok [] := by
  rfl

/-- C9, counterexample: `find_isolated_subgraphs` follows undirected
edges out of the node set, so the single component contains the
non-node edge source `X` and the union of the components is strictly
larger than `graph['nodes']`. -/
theorem component_union_exceeds_nodes :
    (build_graph [[("intent_id", PyVal.vStr "B")]]
        [(PyVal.vStr "X", [PyVal.vStr "B"])] []).toOption.map
        (fun g => (find_isolated_subgraphs g, g.nodes))
      = some ([[PyVal.vStr "B", PyVal.vStr "X"]], [PyVal.vStr "B"]) := by
  rfl

/-! ## Generic fold lemmas and membership helpers -/

theorem mem_insertNew_iff (y x : PyVal) (l : List PyVal) :
    y ∈ insertNew x l ↔ y = x ∨ y ∈ l := by
  unfold insertNew
  by_cases h : x ∈ l
  · rw [if_pos h]
    exact ⟨Or.inr, fun h' => h'.elim (fun he => he ▸ h) id⟩
  · rw [if_neg h]
    simp [List.mem_append, or_comm]

theorem mem_insertEdge_iff (y x : PyVal × PyVal) (l : List (PyVal × PyVal)) :
    y ∈ insertEdge x l ↔ y = x ∨ y ∈ l := by
  unfold insertEdge
  by_cases h : x ∈ l
  · rw [if_pos h]
    exact ⟨Or.inr, fun h' => h'.elim (fun he => he ▸ h) id⟩
  · rw [if_neg h]
    simp [List.mem_append, or_comm]

theorem foldl_preserve {α β : Type} (f : β → α → β) (Q : β → Prop)
    (l : List α) (init : β) (hinit : Q init)
    (hstep : ∀ acc x, x ∈ l → Q acc → Q (f acc x)) : Q (l.foldl f init) := by
  induction l generalizing init with
  | nil => exact hinit
  | cons a l ih =>
      rw [List.foldl_cons]
      exact ih (f init a) (hstep init a (by simp) hinit)
        (fun acc x hx hq => hstep acc x (by simp [hx]) hq)

theorem foldl_mono {α β : Type} (f : List β → α → List β) (l : List α)
    (init : List β) (e : β)
    (hmono : ∀ acc x, ∀ y ∈ acc, y ∈ f acc x) (he : e ∈ init) :
    e ∈ l.foldl f init := by
  induction l generalizing init with
  | nil => exact he
  | cons a l ih => exact ih (f init a) (hmono init a e he)

/-! ## build_graph structure lemmas -/

theorem collectNode_fst (st : List PyVal × List (PyVal × NodeInfo) × List PyVal)
    (intent : IntentRec)
    (st' : List PyVal × List (PyVal × NodeInfo) × List PyVal)
    (h : collectNode st intent = .ok st') :
    st'.1 = insertNew (dictGet intent "intent_id" .vNone) st.1 := by
  obtain ⟨nodes, ninfo, entries⟩ := st
  cases hh : hashable (dictGet intent "intent_id" .vNone) with
  | false => simp [collectNode, hh] at h
  | true =>
  cases h1 : (dictGet intent "inputs" (PyVal.vList [])).pyLen with
  | error e =>
      simp [collectNode, hh, h1, bind, Except.bind, Functor.map, Except.map] at h
  | ok n1 =>
      cases h2 : (dictGet intent "answers" (PyVal.vList [])).pyLen with
      | error e =>
          simp [collectNode, hh, h1, h2, bind, Except.bind, Functor.map, Except.map] at h
      | ok n2 =>
          simp only [collectNode, hh, h1, h2, bind, Except.bind, Functor.map, Except.map,
            pure, Except.pure] at h
          cases h
          rfl

theorem collectNode_ok (st : List PyVal × List (PyVal × NodeInfo) × List PyVal)
    (intent : IntentRec)
    (hh : hashable (dictGet intent "intent_id" .vNone) = true)
    (h1 : ∃ n, (dictGet intent "inputs" (PyVal.vList [])).pyLen = .ok n)
    (h2 : ∃ n, (dictGet intent "answers" (PyVal.vList [])).pyLen = .ok n) :
    ∃ st', collectNode st intent = .ok st' := by
  obtain ⟨nodes, ninfo, entries⟩ := st
  obtain ⟨n1, hn1⟩ := h1
  obtain ⟨n2, hn2⟩ := h2
  cases hc : collectNode (nodes, ninfo, entries) intent with
  | ok st' => exact ⟨st', rfl⟩
  | error e =>
      simp [collectNode, hh, hn1, hn2, bind, Except.bind, Functor.map, Except.map,
        pure, Except.pure] at hc

theorem foldlM_collect_mono (intents : List IntentRec)
    (st st' : List PyVal × List (PyVal × NodeInfo) × List PyVal)
    (h : List.foldlM collectNode st intents = .ok st') :
    ∀ x ∈ st.1, x ∈ st'.1 := by
  induction intents generalizing st with
  | nil =>
      simp only [List.foldlM_nil, pure, Except.pure] at h
      cases h
      exact fun x hx => hx
  | cons i l ih =>
      rw [List.foldlM_cons] at h
      cases h1 : collectNode st i with
      | error e => rw [h1] at h; simp [bind, Except.bind] at h
      | ok st1 =>
          rw [h1] at h
          simp only [bind, Except.bind] at h
          intro x hx
          exact ih st1 h x (by
            rw [collectNode_fst st i st1 h1, mem_insertNew_iff]
            exact Or.inr hx)

theorem foldlM_collect_id_mem (intents : List IntentRec)
    (st st' : List PyVal × List (PyVal × NodeInfo) × List PyVal)
    (intent : IntentRec) (hmem : intent ∈ intents)
    (h : List.foldlM collectNode st intents = .ok st') :
    dictGet intent "intent_id" .vNone ∈ st'.1 := by
  induction intents generalizing st with
  | nil => cases hmem
  | cons i l ih =>
      rw [List.foldlM_cons] at h
      cases h1 : collectNode st i with
      | error e => rw [h1] at h; simp [bind, Except.bind] at h
      | ok st1 =>
          rw [h1] at h
          simp only [bind, Except.bind] at h
          rcases List.mem_cons.mp hmem with he | hl
          · subst he
            exact foldlM_collect_mono l st1 st' h _ (by
              rw [collectNode_fst st intent st1 h1, mem_insertNew_iff]
              exact Or.inl rfl)
          · exact ih st1 hl h

theorem build_graph_ok_elim (intents : List IntentRec)
    (rm : List (PyVal × List PyVal)) (trans : List (PyVal × PyVal)) (g : Graph)
    (h : build_graph intents rm trans = .ok g) :
    ∃ st : List PyVal × List (PyVal × NodeInfo) × List PyVal,
      List.foldlM collectNode ([], [], []) intents = .ok st ∧
      g.nodes = st.1 ∧
      g.edges = trans.foldl (addTransitionEdge st.1) (rm.foldl (addRedirectEdges st.1) []) ∧
      g.entry_points = st.2.2 := by
  cases hst : List.foldlM collectNode (([], [], []) :
      List PyVal × List (PyVal × NodeInfo) × List PyVal) intents with
  | error e =>
      rw [build_graph, hst] at h
      simp [bind, Except.bind] at h
  | ok st =>
      refine ⟨st, rfl, ?_⟩
      rw [build_graph, hst] at h
      obtain ⟨nodes, ninfo, entries⟩ := st
      simp only [bind, Except.bind, pure, Except.pure] at h
      cases h
      exact ⟨rfl, rfl, rfl⟩

/-- C10: an intent whose `intent_id` key holds null contributes the null
value itself as a graph node — `build_graph` adds `intent.get('intent_id')`
to the node set unconditionally, so `nodes` is not a set of strings only. -/
theorem build_graph_adds_null_intent_id (intents : List IntentRec)
    (rm : List (PyVal × List PyVal)) (trans : List (PyVal × PyVal)) (g : Graph)
    (intent : IntentRec) (hmem : intent ∈ intents)
    (hid : intent.find? (fun kv => kv.1 = "intent_id") = some ("intent_id", PyVal.vNone))
    (h : build_graph intents rm trans = .ok g) :
    PyVal.vNone ∈ g.nodes := by
  obtain ⟨st, hst, hn, -, -⟩ := build_graph_ok_elim intents rm trans g h
  have hget : dictGet intent "intent_id" .vNone = PyVal.vNone := by
    unfold dictGet
    rw [hid]
  rw [hn]
  have := foldlM_collect_id_mem intents ([], [], []) st intent hmem hst
  rwa [hget] at this

/-- C10 witness: the one-intent corpus `[{"intent_id": null}]` puts null
into `nodes` (and it is a dead end). -/
theorem build_graph_adds_null_intent_id_witness :
    PyVal.vNone ∈ (Graph.mk [PyVal.vNone] [] [] [PyVal.vNone]
      [(PyVal.vNone, ⟨PyVal.vStr "", PyVal.vStr "", false, false⟩)]).nodes
    ∧ PyVal.vNone ∈ (Graph.mk [PyVal.vNone] [] [] [PyVal.vNone]
      [(PyVal.vNone, ⟨PyVal.vStr "", PyVal.vStr "", false, false⟩)]).dead_ends := by
  constructor
  · exact build_graph_adds_null_intent_id [[("intent_id", PyVal.vNone)]] [] [] _
      [("intent_id", PyVal.vNone)] (by decide) (by decide) rfl
  · decide

/-- C3, amended: every graph edge's target is a node, and when
`redirect_map` is empty (so every edge comes from the transitions
argument) both endpoints are nodes; only redirect_map edges can have a
non-node source. -/
theorem build_graph_edge_targets_are_nodes (intents : List IntentRec)
    (rm : List (PyVal × List PyVal)) (trans : List (PyVal × PyVal)) (g : Graph)
    (h : build_graph intents rm trans = .ok g) :
    (∀ e ∈ g.edges, e.2 ∈ g.nodes)
    ∧ (rm = [] → ∀ e ∈ g.edges, e.1 ∈ g.nodes ∧ e.2 ∈ g.nodes) := by
  obtain ⟨st, -, hn, he, -⟩ := build_graph_ok_elim intents rm trans g h
  have tstep : ∀ (Q : PyVal × PyVal → Prop),
      (∀ a b, a ∈ st.1 → b ∈ st.1 → Q (a, b)) →
      ∀ (acc : List (PyVal × PyVal)) (x : PyVal × PyVal), x ∈ trans →
        (∀ e ∈ acc, Q e) → ∀ e ∈ addTransitionEdge st.1 acc x, Q e := by
    intro Q hQ acc x _ hacc e he'
    unfold addTransitionEdge at he'
    by_cases hc : x.1 ∈ st.1 ∧ x.2 ∈ st.1
    · rw [if_pos hc] at he'
      rcases (mem_insertEdge_iff e _ acc).mp he' with h1 | h2
      · subst h1
        exact hQ x.1 x.2 hc.1 hc.2
      · exact hacc e h2
    · rw [if_neg hc] at he'
      exact hacc e he'
  constructor
  · rw [he, hn]
    refine foldl_preserve (addTransitionEdge st.1) (fun es => ∀ e ∈ es, e.2 ∈ st.1)
      trans _ ?_ (tstep (fun e => e.2 ∈ st.1) (fun a b _ hb => hb))
    refine foldl_preserve (addRedirectEdges st.1) (fun es => ∀ e ∈ es, e.2 ∈ st.1)
      rm [] (by simp) ?_
    intro acc kv _ hacc
    unfold addRedirectEdges
    refine foldl_preserve _ (fun es => ∀ e ∈ es, e.2 ∈ st.1) kv.2 acc hacc ?_
    intro acc2 target _ hacc2 e he'
    by_cases htn : target ∈ st.1
    · rw [if_pos htn] at he'
      rcases (mem_insertEdge_iff e _ acc2).mp he' with h1 | h2
      · subst h1
        exact htn
      · exact hacc2 e h2
    · rw [if_neg htn] at he'
      exact hacc2 e he'
  · intro hrm
    subst hrm
    rw [he, hn]
    exact foldl_preserve (addTransitionEdge st.1)
      (fun es => ∀ e ∈ es, e.1 ∈ st.1 ∧ e.2 ∈ st.1) trans _ (by simp)
      (tstep (fun e => e.1 ∈ st.1 ∧ e.2 ∈ st.1) (fun a b ha hb => ⟨ha, hb⟩))

/-- C3 witness: on the counterexample corpus the edge `(X, B)` has its
target `B` among the nodes. -/
theorem build_graph_edge_targets_are_nodes_witness :
    PyVal.vStr "B" ∈ (Graph.mk [PyVal.vStr "B"] [(PyVal.vStr "X", PyVal.vStr "B")] []
      [PyVal.vStr "B"]
      [(PyVal.vStr "B", ⟨PyVal.vStr "", PyVal.vStr "", false, false⟩)]).nodes := by
  exact (build_graph_edge_targets_are_nodes [[("intent_id", PyVal.vStr "B")]]
    [(PyVal.vStr "X", [PyVal.vStr "B"])] [] _ rfl).1
    (PyVal.vStr "X", PyVal.vStr "B") (by decide)

theorem pyLen_ok_of_hasLen (v : PyVal) (h : hasLen v = true) :
    ∃ n, v.pyLen = .ok n := by
  cases v with
  | vStr s => exact ⟨s.length, rfl⟩
  | vList l => exact ⟨l.length, rfl⟩
  | vDict d => exact ⟨d.length, rfl⟩
  | vNone => exact absurd h (by decide)
  | vBool b => exact absurd h (by simp [hasLen])
  | vInt n => exact absurd h (by simp [hasLen])
  | vFloat x => exact absurd h (by simp [hasLen])

theorem foldlM_collect_ok (intents : List IntentRec)
    (st : List PyVal × List (PyVal × NodeInfo) × List PyVal)
    (h : ∀ intent ∈ intents,
      hashable (dictGet intent "intent_id" .vNone) = true ∧
      hasLen (dictGet intent "inputs" (PyVal.vList [])) = true ∧
      hasLen (dictGet intent "answers" (PyVal.vList [])) = true) :
    ∃ st', List.foldlM collectNode st intents = .ok st' := by
  induction intents generalizing st with
  | nil => exact ⟨st, rfl⟩
  | cons i l ih =>
      obtain ⟨st1, hst1⟩ := collectNode_ok st i (h i (by simp)).1
        (pyLen_ok_of_hasLen _ (h i (by simp)).2.1)
        (pyLen_ok_of_hasLen _ (h i (by simp)).2.2)
      obtain ⟨st', hst'⟩ := ih st1 (fun intent hi => h intent (by simp [hi]))
      refine ⟨st', ?_⟩
      rw [List.foldlM_cons, hst1]
      simpa [bind, Except.bind] using hst'

/-- C4, amended: `build_graph` completes whenever every intent's
`intent_id` value (defaulting to null) is hashable — not a list or dict,
which `graph['nodes'].add` rejects with TypeError before the `len()`
checks — and its `inputs` and `answers` values (defaulting to `[]` when
the key is absent) support `len()`, provided the `redirect_map` and
`transitions` endpoints are hashable as their declared `str` types
guarantee; malformed `record_type` or `title` never raise.  A present
null/NaN `inputs` or `answers` raises TypeError (see the counterexample),
and so does a list-valued `intent_id` (second conjunct). -/
theorem build_graph_ok_of_sized (intents : List IntentRec)
    (rm : List (PyVal × List PyVal)) (trans : List (PyVal × PyVal))
    (h : ∀ intent ∈ intents,
      hashable (dictGet intent "intent_id" .vNone) = true ∧
      hasLen (dictGet intent "inputs" (PyVal.vList [])) = true ∧
      hasLen (dictGet intent "answers" (PyVal.vList [])) = true)
    (hrm : ∀ kv ∈ rm, hashable kv.1 = true ∧ ∀ t ∈ kv.2, hashable t = true)
    (htr : ∀ st ∈ trans, hashable st.1 = true ∧ hashable st.2 = true) :
    (build_graph intents rm trans).isOk = true
    ∧ (build_graph [[("intent_id", PyVal.vList [])]] [] []).isOk = false := by
  constructor
  · obtain ⟨st, hst⟩ := foldlM_collect_ok intents ([], [], []) h
    unfold build_graph
    rw [hst]
    obtain ⟨nodes, ninfo, entries⟩ := st
    rfl
  · rfl

/-- C4 witness: a corpus whose only intent has absent `inputs`/`answers`
and a NaN `record_type` still builds a graph, while a list-valued
`intent_id` raises. -/
theorem build_graph_ok_of_sized_witness :
    (build_graph [[("intent_id", PyVal.vStr "A"),
        ("record_type", PyVal.vFloat none)]] [] []).isOk = true
    ∧ (build_graph [[("intent_id", PyVal.vList [])]] [] []).isOk = false :=
  build_graph_ok_of_sized [[("intent_id", PyVal.vStr "A"),
    ("record_type", PyVal.vFloat none)]] [] [] (by decide) (by decide) (by decide)

/-- C2, amended: `build_graph` performs no identifier resolution — the
raw transition pair `(s, t)` becomes an edge exactly when both raw
endpoints are nodes.  This theorem is the positive half: any transition
pair whose raw endpoints are both nodes is an edge. -/
theorem build_graph_adds_raw_edge (intents : List IntentRec)
    (rm : List (PyVal × List PyVal)) (trans : List (PyVal × PyVal)) (g : Graph)
    (s t : PyVal) (h : build_graph intents rm trans = .ok g)
    (hmem : (s, t) ∈ trans) (hs : s ∈ g.nodes) (ht : t ∈ g.nodes) :
    (s, t) ∈ g.edges := by
  obtain ⟨st, -, hn, he, -⟩ := build_graph_ok_elim intents rm trans g h
  rw [hn] at hs ht
  rw [he]
  obtain ⟨l1, l2, rfl⟩ := List.append_of_mem hmem
  rw [List.foldl_append, List.foldl_cons]
  refine foldl_mono (addTransitionEdge st.1) l2 _ (s, t) ?_ ?_
  · intro acc x y hy
    unfold addTransitionEdge
    by_cases hc : x.1 ∈ st.1 ∧ x.2 ∈ st.1
    · rw [if_pos hc]
      exact (mem_insertEdge_iff y _ acc).mpr (Or.inr hy)
    · rw [if_neg hc]
      exact hy
  · unfold addTransitionEdge
    rw [if_pos ⟨hs, ht⟩]
    exact (mem_insertEdge_iff _ _ _).mpr (Or.inl rfl)

/-- C2 witness: on the two-intent corpus the raw transition `(A, B)`
(whose endpoints are both nodes) does become an edge. -/
theorem build_graph_adds_raw_edge_witness :
    (PyVal.vStr "A", PyVal.vStr "B") ∈ (Graph.mk
      [PyVal.vStr "A", PyVal.vStr "B"]
      [(PyVal.vStr "A", PyVal.vStr "B")]
      []
      [PyVal.vStr "B"]
      [(PyVal.vStr "A", ⟨PyVal.vStr "", PyVal.vStr "", false, false⟩),
       (PyVal.vStr "B", ⟨PyVal.vStr "", PyVal.vStr "", false, false⟩)]).edges := by
  exact build_graph_adds_raw_edge corpusAB []
    [(PyVal.vStr "A", PyVal.vStr "B")] _ (PyVal.vStr "A") (PyVal.vStr "B")
    rfl (by decide) (by decide) (by decide)

theorem dedupGo_sublist (ts : List Transition) (seen : List (PyVal × PyVal × String)) :
    (dedupGo seen ts).Sublist ts := by
  induction ts generalizing seen with
  | nil => exact List.Sublist.refl []
  | cons t ts ih =>
      by_cases hk : transKey t ∈ seen
      · rw [show dedupGo seen (t :: ts) = dedupGo seen ts from by simp [dedupGo, hk]]
        exact (ih seen).cons t
      · rw [show dedupGo seen (t :: ts) = t :: dedupGo (transKey t :: seen) ts from by
          simp [dedupGo, hk]]
        exact (ih (transKey t :: seen)).cons₂ t

/-- C7: the aggregator's deduplication keeps the first occurrence of each
`(source_id, target_id, transition_type)` key — the head of the list
survives and all its later key-duplicates are dropped, order otherwise
preserved (the output is a sublist of the input) — and it is idempotent. -/
theorem first_pass_dedup_first_wins_idempotent :
    (∀ ts : List Transition, first_pass_dedup (first_pass_dedup ts) = first_pass_dedup ts)
    ∧ (∀ (t : Transition) (ts : List Transition),
        first_pass_dedup (t :: ts)
          = t :: first_pass_dedup (ts.filter (fun u => decide (transKey u ≠ transKey t))))
    ∧ (∀ ts : List Transition, (first_pass_dedup ts).Sublist ts) := by
  refine ⟨fun ts => dedupGo_self ts [], fun t ts => ?_, fun ts => dedupGo_sublist ts []⟩
  unfold first_pass_dedup
  rw [show dedupGo [] (t :: ts) = t :: dedupGo [transKey t] ts from by simp [dedupGo]]
  rw [dedupGo_filter]

/-! ## Source attribution of extracted transitions (C8) -/

theorem except_bind_ok {α β : Type} (x : Except String α) (f : α → Except String β)
    (b : β) (h : (x >>= f) = .ok b) : ∃ a, x = .ok a ∧ f a = .ok b := by
  cases x with
  | error e => simp [bind, Except.bind] at h
  | ok a => exact ⟨a, rfl, h⟩

theorem except_map_ok {α β : Type} (g : α → β) (x : Except String α)
    (b : β) (h : (g <$> x) = .ok b) : ∃ a, x = .ok a ∧ g a = b := by
  cases x with
  | error e => simp [Functor.map, Except.map] at h
  | ok a =>
      refine ⟨a, rfl, ?_⟩
      simpa [Functor.map, Except.map] using h

theorem foldlM_ok_preserve {α β : Type}
    (f : List β → α → Except String (List β)) (l : List α)
    (init res : List β) (h : List.foldlM f init l = .ok res)
    (P : β → Prop) (hinit : ∀ t ∈ init, P t)
    (hstep : ∀ acc x r, x ∈ l → f acc x = .ok r → (∀ t ∈ acc, P t) → ∀ t ∈ r, P t) :
    ∀ t ∈ res, P t := by
  induction l generalizing init with
  | nil =>
      simp only [List.foldlM_nil, pure, Except.pure] at h
      cases h
      exact hinit
  | cons a l ih =>
      rw [List.foldlM_cons] at h
      obtain ⟨r, h1, h2⟩ := except_bind_ok _ _ _ h
      exact ih r h2 (hstep init a r (by simp) h1 hinit)
        (fun acc x rr hx => hstep acc x rr (by simp [hx]))

theorem strFieldTransition_source (intent_id v : PyVal) (ttype : String)
    (cond : Option String) (t : Transition)
    (h : t ∈ strFieldTransition intent_id v ttype cond) :
    t.source_id = intent_id := by
  cases v with
  | vStr s =>
      simp only [strFieldTransition] at h
      by_cases hs : s ≠ ""
      · rw [if_pos hs] at h
        rw [List.mem_singleton] at h
        rw [h]
      · rw [if_neg hs] at h
        cases h
  | vNone => cases h
  | vBool b => cases h
  | vInt n => cases h
  | vFloat x => cases h
  | vList l => cases h
  | vDict d => cases h

theorem answerTransitions_source (intent_id : PyVal) (answer : PyVal)
    (ts : List Transition) (h : answerTransitions intent_id answer = .ok ts) :
    ∀ t ∈ ts, t.source_id = intent_id := by
  cases answer with
  | vDict d =>
      simp only [answerTransitions] at h
      obtain ⟨slot_condition, h1, h⟩ := except_bind_ok _ _ _ h
      obtain ⟨text_redirects, h2, h⟩ := except_bind_ok _ _ _ h
      obtain ⟨buttons_md, h3, h⟩ := except_bind_ok _ _ _ h
      rw [show ∀ z : List Transition, (pure z : Except String (List Transition))
          = .ok z from fun z => rfl] at h
      cases h
      intro t ht
      simp only [List.mem_append] at ht
      rcases ht with ⟨⟨⟨h4 | h5⟩ | h6⟩ | h7⟩ | h8
      · exact strFieldTransition_source _ _ _ _ t h4
      · obtain ⟨tgt, -, rfl⟩ := List.mem_map.mp h5
        rfl
      · obtain ⟨btn, -, rfl⟩ := List.mem_map.mp h6
        rfl
      · refine foldl_preserve _ (fun acc => ∀ u ∈ acc, u.source_id = intent_id)
          _ _ (by simp) ?_ t h7
        intro acc x _ hacc u hu
        cases x with
        | vDict bd =>
            have hu0 : u ∈ (match dictGet bd "action" (PyVal.vDict []) with
                | PyVal.vDict ad =>
                    if dictGet ad "type" (PyVal.vStr "")
                        = PyVal.vStr "REDIRECT_TO_INTENT" then
                      (if (dictGet ad "intent_id" (PyVal.vStr "")).truthy = true then
                        acc ++ [Transition.mk intent_id
                          (dictGet ad "intent_id" (PyVal.vStr "")) "button_redirect" none]
                      else acc)
                    else acc
                | _ => acc) := hu
            cases hbd : dictGet bd "action" (PyVal.vDict []) with
            | vDict ad =>
                rw [hbd] at hu0
                have hu' : u ∈ (if dictGet ad "type" (PyVal.vStr "")
                      = PyVal.vStr "REDIRECT_TO_INTENT" then
                    (if (dictGet ad "intent_id" (PyVal.vStr "")).truthy = true then
                      acc ++ [Transition.mk intent_id
                        (dictGet ad "intent_id" (PyVal.vStr "")) "button_redirect" none]
                    else acc)
                  else acc) := hu0
                by_cases hty : dictGet ad "type" (PyVal.vStr "")
                    = PyVal.vStr "REDIRECT_TO_INTENT"
                · rw [if_pos hty] at hu'
                  by_cases htr : (dictGet ad "intent_id" (PyVal.vStr "")).truthy = true
                  · rw [if_pos htr] at hu'
                    rcases List.mem_append.mp hu' with h9 | h10
                    · exact hacc u h9
                    · rw [List.mem_singleton] at h10
                      rw [h10]
                  · rw [if_neg htr] at hu'
                    exact hacc u hu'
                · rw [if_neg hty] at hu'
                  exact hacc u hu'
            | vNone => rw [hbd] at hu0; exact hacc u hu0
            | vBool b => rw [hbd] at hu0; exact hacc u hu0
            | vInt n => rw [hbd] at hu0; exact hacc u hu0
            | vFloat x => rw [hbd] at hu0; exact hacc u hu0
            | vStr ss => rw [hbd] at hu0; exact hacc u hu0
            | vList l => rw [hbd] at hu0; exact hacc u hu0
        | vNone => exact hacc u hu
        | vBool b => exact hacc u hu
        | vInt n => exact hacc u hu
        | vFloat x => exact hacc u hu
        | vStr ss => exact hacc u hu
        | vList l => exact hacc u hu
      · refine foldl_preserve _ (fun acc => ∀ u ∈ acc, u.source_id = intent_id)
          _ _ (by simp) ?_ t h8
        intro acc x _ hacc u hu
        cases x with
        | vDict ad =>
            have hu' : u ∈ (if (dictGet ad "action_id" (PyVal.vStr "")).truthy = true then
                acc ++ [Transition.mk intent_id
                  (dictGet ad "action_id" (PyVal.vStr "")) "action_redirect"
                  (if (dictGet ad "action_text" (PyVal.vStr "")).truthy = true then
                    some ("action: " ++ (dictGet ad "action_text" (PyVal.vStr "")).pyStr)
                  else none)]
              else acc) := hu
            by_cases hai : (dictGet ad "action_id" (PyVal.vStr "")).truthy = true
            · rw [if_pos hai] at hu'
              rcases List.mem_append.mp hu' with h9 | h10
              · exact hacc u h9
              · rw [List.mem_singleton] at h10
                rw [h10]
            · rw [if_neg hai] at hu'
              exact hacc u hu'
        | vNone => exact hacc u hu
        | vBool b => exact hacc u hu
        | vInt n => exact hacc u hu
        | vFloat x => exact hacc u hu
        | vStr ss => exact hacc u hu
        | vList l => exact hacc u hu
  | vNone => cases h; intro t ht; cases ht
  | vBool b => cases h; intro t ht; cases ht
  | vInt n => cases h; intro t ht; cases ht
  | vFloat x => cases h; intro t ht; cases ht
  | vStr ss => cases h; intro t ht; cases ht
  | vList l => cases h; intro t ht; cases ht

theorem extract_transitions_source (intent : IntentRec) (ts : List Transition)
    (h : extract_transitions intent = .ok ts) :
    ∀ t ∈ ts, t.source_id = dictGet intent "intent_id" (PyVal.vStr "unknown") := by
  simp only [extract_transitions] at h
  obtain ⟨t3, hf, h⟩ := except_bind_ok _ _ _ h
  rw [show ∀ z : List Transition, (pure z : Except String (List Transition))
      = .ok z from fun z => rfl] at h
  cases h
  intro t ht
  simp only [List.mem_append] at ht
  rcases ht with ⟨⟨⟨h1 | h2⟩ | h3⟩ | h4⟩ | h5
  · exact strFieldTransition_source _ _ _ _ t h1
  · exact strFieldTransition_source _ _ _ _ t h2
  · refine foldlM_ok_preserve _ _ [] t3 hf
      (fun u => u.source_id = dictGet intent "intent_id" (PyVal.vStr "unknown"))
      (by simp) ?_ t h3
    intro acc x r _ hr hacc
    obtain ⟨ts', ha, hb⟩ := except_bind_ok _ _ _ hr
    rw [show ∀ z : List Transition, (pure z : Except String (List Transition))
        = .ok z from fun z => rfl] at hb
    cases hb
    intro u hu
    rcases List.mem_append.mp hu with h6 | h7
    · exact hacc u h6
    · exact answerTransitions_source _ x ts' ha u h7
  · refine foldl_preserve _
      (fun acc => ∀ u ∈ acc, u.source_id = dictGet intent "intent_id" (PyVal.vStr "unknown"))
      _ _ (by simp) ?_ t h4
    intro acc x _ hacc u hu
    cases x with
    | vDict fd =>
        revert hu
        refine foldl_preserve _
          (fun acc2 => ∀ u ∈ acc2,
            u.source_id = dictGet intent "intent_id" (PyVal.vStr "unknown"))
          _ _ hacc ?_ u
        intro acc2 c _ hacc2 w hw
        cases c with
        | vDict cd =>
            rcases List.mem_append.mp hw with hw1 | hw2
            · rcases List.mem_append.mp hw1 with hw3 | hw4
              · exact hacc2 w hw3
              · exact strFieldTransition_source _ _ _ _ w hw4
            · exact strFieldTransition_source _ _ _ _ w hw2
        | vNone => exact hacc2 w hw
        | vBool b => exact hacc2 w hw
        | vInt n => exact hacc2 w hw
        | vFloat x => exact hacc2 w hw
        | vStr ss => exact hacc2 w hw
        | vList l => exact hacc2 w hw
    | vNone => exact hacc u hu
    | vBool b => exact hacc u hu
    | vInt n => exact hacc u hu
    | vFloat x => exact hacc u hu
    | vStr ss => exact hacc u hu
    | vList l => exact hacc u hu
  · exact strFieldTransition_source _ _ _ _ t h5

/-- C8: transitions extracted from an intent with no `intent_id` key at
all are attributed to the shared placeholder source `"unknown"`
(`intent.get('intent_id', 'unknown')`). -/
theorem extract_transitions_source_unknown (intent : IntentRec)
    (ts : List Transition) (t : Transition)
    (hid : intent.find? (fun kv => kv.1 = "intent_id") = none)
    (hok : extract_transitions intent = .ok ts) (hmem : t ∈ ts) :
    t.source_id = PyVal.vStr "unknown" := by
  have := extract_transitions_source intent ts hok t hmem
  rwa [show dictGet intent "intent_id" (PyVal.vStr "unknown") = PyVal.vStr "unknown" from by
    unfold dictGet; rw [hid]] at this

/-- C8 witness: the id-less intent `{"redirect_to": "R"}` yields one
transition whose source is `"unknown"`. -/
theorem extract_transitions_source_unknown_witness :
    (Transition.mk (PyVal.vStr "unknown") (PyVal.vStr "R") "direct_redirect"
      none).source_id = PyVal.vStr "unknown" := by
  exact extract_transitions_source_unknown [("redirect_to", PyVal.vStr "R")]
    [Transition.mk (PyVal.vStr "unknown") (PyVal.vStr "R") "direct_redirect" none]
    (Transition.mk (PyVal.vStr "unknown") (PyVal.vStr "R") "direct_redirect" none)
    (by decide) rfl (by decide)

/-! ## Malformed-field robustness of extraction (C6) -/

theorem safe_list_notAList (v : PyVal) (h : notAList v = true) : safe_list v = [] := by
  cases v with
  | vList l => exact absurd h (by simp [notAList])
  | vFloat x => cases x <;> rfl
  | vNone => rfl
  | vBool b => rfl
  | vInt n => rfl
  | vStr ss => rfl
  | vDict d => rfl

theorem dictGet_map_replace (m : List (String × PyVal)) (f k : String)
    (x d : PyVal) (hk : k ≠ f) :
    dictGet (m.map (fun kv => if kv.1 = f then (f, x) else kv)) k d
      = dictGet m k d := by
  induction m with
  | nil => rfl
  | cons b m ih =>
      by_cases hb : b.1 = f
      · rw [show (b :: m).map (fun kv => if kv.1 = f then (f, x) else kv)
            = (f, x) :: m.map (fun kv => if kv.1 = f then (f, x) else kv) from by
          simp [hb]]
        rw [show dictGet ((f, x) :: m.map (fun kv => if kv.1 = f then (f, x) else kv)) k d
            = dictGet (m.map (fun kv => if kv.1 = f then (f, x) else kv)) k d from by
          simp [dictGet, List.find?, Ne.symm hk]]
        rw [ih]
        rw [show dictGet (b :: m) k d = dictGet m k d from by
          simp [dictGet, List.find?, show ¬(b.1 = k) from fun hh => hk (hh.symm.trans hb)]]
      · rw [show (b :: m).map (fun kv => if kv.1 = f then (f, x) else kv)
            = b :: m.map (fun kv => if kv.1 = f then (f, x) else kv) from by
          simp [hb]]
        by_cases hbk : b.1 = k
        · simp [dictGet, List.find?, hbk]
        · rw [show dictGet (b :: m.map (fun kv => if kv.1 = f then (f, x) else kv)) k d
              = dictGet (m.map (fun kv => if kv.1 = f then (f, x) else kv)) k d from by
            simp [dictGet, List.find?, hbk]]
          rw [ih]
          rw [show dictGet (b :: m) k d = dictGet m k d from by
            simp [dictGet, List.find?, hbk]]

theorem dictGet_dictSet (m : List (String × PyVal)) (f k : String) (x d : PyVal) :
    dictGet (dictSet m f x) k d = if k = f then x else dictGet m k d := by
  induction m with
  | nil =>
      by_cases hk : k = f
      · simp [dictSet, dictGet, List.find?, hk]
      · simp [dictSet, dictGet, List.find?, hk, Ne.symm hk]
  | cons a m ih =>
      by_cases ha : a.1 = f
      · have hany : (a :: m).any (fun kv => kv.1 = f) = true := by simp [ha]
        rw [show dictSet (a :: m) f x
            = (a :: m).map (fun kv => if kv.1 = f then (f, x) else kv) from by
          simp [dictSet, hany]]
        by_cases hk : k = f
        · rw [if_pos hk]
          rw [show (a :: m).map (fun kv => if kv.1 = f then (f, x) else kv)
              = (f, x) :: m.map (fun kv => if kv.1 = f then (f, x) else kv) from by
            simp [ha]]
          simp [dictGet, List.find?, hk]
        · rw [dictGet_map_replace (a :: m) f k x d hk, if_neg hk]
      · by_cases hany : m.any (fun kv => kv.1 = f) = true
        · have hany2 : (a :: m).any (fun kv => kv.1 = f) = true := by simp [hany]
          rw [show dictSet (a :: m) f x
              = a :: m.map (fun kv => if kv.1 = f then (f, x) else kv) from by
            simp [dictSet, hany2, ha]]
          by_cases hbk : a.1 = k
          · have hk : ¬ k = f := fun hh => ha (hbk.trans hh)
            rw [if_neg hk]
            simp [dictGet, List.find?, hbk]
          · rw [show dictGet (a :: m.map (fun kv => if kv.1 = f then (f, x) else kv)) k d
                = dictGet (m.map (fun kv => if kv.1 = f then (f, x) else kv)) k d from by
              simp [dictGet, List.find?, hbk]]
            rw [show dictSet m f x
                = m.map (fun kv => if kv.1 = f then (f, x) else kv) from by
              simp [dictSet, hany]] at ih
            rw [ih]
            by_cases hk : k = f
            · rw [if_pos hk, if_pos hk]
            · rw [if_neg hk, if_neg hk]
              rw [show dictGet (a :: m) k d = dictGet m k d from by
                simp [dictGet, List.find?, hbk]]
        · have hany2 : ¬ (a :: m).any (fun kv => kv.1 = f) = true := by
            simp only [List.any_cons, Bool.or_eq_true, decide_eq_true_eq]
            push_neg
            refine ⟨ha, ?_⟩
            simpa using hany
          rw [show dictSet (a :: m) f x = a :: (m ++ [(f, x)]) from by
            simp [dictSet, hany2]]
          rw [show dictSet m f x = m ++ [(f, x)] from by
            simp [dictSet, hany]] at ih
          by_cases hbk : a.1 = k
          · have hk : ¬ k = f := fun hh => ha (hbk.trans hh)
            rw [if_neg hk]
            simp [dictGet, List.find?, hbk]
          · rw [show dictGet (a :: (m ++ [(f, x)])) k d
                = dictGet (m ++ [(f, x)]) k d from by
              simp [dictGet, List.find?, hbk]]
            rw [ih]
            by_cases hk : k = f
            · rw [if_pos hk, if_pos hk]
            · rw [if_neg hk, if_neg hk]
              rw [show dictGet (a :: m) k d = dictGet m k d from by
                simp [dictGet, List.find?, hbk]]

/-- C6: malformed-input robustness of transition extraction.  If any of
the fields `answers`, `slot_fillers`, `topics` of an intent — or the
`slots` field of one of its answers — holds None, a NaN float, or any
non-list value, extraction behaves exactly as if that field were the
empty list (in particular the malformed field never causes an
exception; `topics` is not read by extraction at all). -/
theorem extract_transitions_malformed_field (intent : IntentRec) (v : PyVal)
    (hv : notAList v = true) :
    (dictGet intent "answers" (PyVal.vList []) = v →
      extract_transitions intent
        = extract_transitions (dictSet intent "answers" (PyVal.vList [])))
    ∧ (dictGet intent "slot_fillers" (PyVal.vList []) = v →
      extract_transitions intent
        = extract_transitions (dictSet intent "slot_fillers" (PyVal.vList [])))
    ∧ (dictGet intent "topics" (PyVal.vList []) = v →
      extract_transitions intent
        = extract_transitions (dictSet intent "topics" (PyVal.vList [])))
    ∧ (∀ (intent_id : PyVal) (d : List (String × PyVal)),
        dictGet d "slots" (PyVal.vList []) = v →
        answerTransitions intent_id (PyVal.vDict d)
          = answerTransitions intent_id
              (PyVal.vDict (dictSet d "slots" (PyVal.vList [])))) := by
  refine ⟨?_, ?_, ?_, ?_⟩
  · intro hget
    have e1 : dictGet (dictSet intent "answers" (PyVal.vList [])) "intent_id"
        (PyVal.vStr "unknown") = dictGet intent "intent_id" (PyVal.vStr "unknown") := by
      rw [dictGet_dictSet, if_neg (by decide)]
    have e2 : dictGet (dictSet intent "answers" (PyVal.vList [])) "redirect_to"
        PyVal.vNone = dictGet intent "redirect_to" PyVal.vNone := by
      rw [dictGet_dictSet, if_neg (by decide)]
    have e3 : dictGet (dictSet intent "answers" (PyVal.vList [])) "fallback_intent"
        PyVal.vNone = dictGet intent "fallback_intent" PyVal.vNone := by
      rw [dictGet_dictSet, if_neg (by decide)]
    have e4 : dictGet (dictSet intent "answers" (PyVal.vList [])) "answers"
        (PyVal.vList []) = PyVal.vList [] := by
      rw [dictGet_dictSet, if_pos rfl]
    have e5 : dictGet (dictSet intent "answers" (PyVal.vList [])) "slot_fillers"
        (PyVal.vList []) = dictGet intent "slot_fillers" (PyVal.vList []) := by
      rw [dictGet_dictSet, if_neg (by decide)]
    have e6 : dictGet (dictSet intent "answers" (PyVal.vList [])) "matched_intent_id"
        PyVal.vNone = dictGet intent "matched_intent_id" PyVal.vNone := by
      rw [dictGet_dictSet, if_neg (by decide)]
    have e0 : safe_list (PyVal.vList ([] : List PyVal)) = [] := rfl
    simp only [extract_transitions, e1, e2, e3, e4, e5, e6, hget,
      safe_list_notAList v hv, e0]
  · intro hget
    have e1 : dictGet (dictSet intent "slot_fillers" (PyVal.vList [])) "intent_id"
        (PyVal.vStr "unknown") = dictGet intent "intent_id" (PyVal.vStr "unknown") := by
      rw [dictGet_dictSet, if_neg (by decide)]
    have e2 : dictGet (dictSet intent "slot_fillers" (PyVal.vList [])) "redirect_to"
        PyVal.vNone = dictGet intent "redirect_to" PyVal.vNone := by
      rw [dictGet_dictSet, if_neg (by decide)]
    have e3 : dictGet (dictSet intent "slot_fillers" (PyVal.vList [])) "fallback_intent"
        PyVal.vNone = dictGet intent "fallback_intent" PyVal.vNone := by
      rw [dictGet_dictSet, if_neg (by decide)]
    have e4 : dictGet (dictSet intent "slot_fillers" (PyVal.vList [])) "answers"
        (PyVal.vList []) = dictGet intent "answers" (PyVal.vList []) := by
      rw [dictGet_dictSet, if_neg (by decide)]
    have e5 : dictGet (dictSet intent "slot_fillers" (PyVal.vList [])) "slot_fillers"
        (PyVal.vList []) = PyVal.vList [] := by
      rw [dictGet_dictSet, if_pos rfl]
    have e6 : dictGet (dictSet intent "slot_fillers" (PyVal.vList [])) "matched_intent_id"
        PyVal.vNone = dictGet intent "matched_intent_id" PyVal.vNone := by
      rw [dictGet_dictSet, if_neg (by decide)]
    have e0 : safe_list (PyVal.vList ([] : List PyVal)) = [] := rfl
    simp only [extract_transitions, e1, e2, e3, e4, e5, e6, hget,
      safe_list_notAList v hv, e0]
  · intro hget
    have e1 : dictGet (dictSet intent "topics" (PyVal.vList [])) "intent_id"
        (PyVal.vStr "unknown") = dictGet intent "intent_id" (PyVal.vStr "unknown") := by
      rw [dictGet_dictSet, if_neg (by decide)]
    have e2 : dictGet (dictSet intent "topics" (PyVal.vList [])) "redirect_to"
        PyVal.vNone = dictGet intent "redirect_to" PyVal.vNone := by
      rw [dictGet_dictSet, if_neg (by decide)]
    have e3 : dictGet (dictSet intent "topics" (PyVal.vList [])) "fallback_intent"
        PyVal.vNone = dictGet intent "fallback_intent" PyVal.vNone := by
      rw [dictGet_dictSet, if_neg (by decide)]
    have e4 : dictGet (dictSet intent "topics" (PyVal.vList [])) "answers"
        (PyVal.vList []) = dictGet intent "answers" (PyVal.vList []) := by
      rw [dictGet_dictSet, if_neg (by decide)]
    have e5 : dictGet (dictSet intent "topics" (PyVal.vList [])) "slot_fillers"
        (PyVal.vList []) = dictGet intent "slot_fillers" (PyVal.vList []) := by
      rw [dictGet_dictSet, if_neg (by decide)]
    have e6 : dictGet (dictSet intent "topics" (PyVal.vList [])) "matched_intent_id"
        PyVal.vNone = dictGet intent "matched_intent_id" PyVal.vNone := by
      rw [dictGet_dictSet, if_neg (by decide)]
    simp only [extract_transitions, e1, e2, e3, e4, e5, e6]
  · intro intent_id d hget
    have e1 : dictGet (dictSet d "slots" (PyVal.vList [])) "answer"
        (PyVal.vStr "") = dictGet d "answer" (PyVal.vStr "") := by
      rw [dictGet_dictSet, if_neg (by decide)]
    have e2 : dictGet (dictSet d "slots" (PyVal.vList [])) "slots"
        (PyVal.vList []) = PyVal.vList [] := by
      rw [dictGet_dictSet, if_pos rfl]
    have e3 : dictGet (dictSet d "slots" (PyVal.vList [])) "redirect_to"
        PyVal.vNone = dictGet d "redirect_to" PyVal.vNone := by
      rw [dictGet_dictSet, if_neg (by decide)]
    have e4 : dictGet (dictSet d "slots" (PyVal.vList [])) "buttons"
        (PyVal.vList []) = dictGet d "buttons" (PyVal.vList []) := by
      rw [dictGet_dictSet, if_neg (by decide)]
    have e5 : dictGet (dictSet d "slots" (PyVal.vList [])) "actions"
        (PyVal.vList []) = dictGet d "actions" (PyVal.vList []) := by
      rw [dictGet_dictSet, if_neg (by decide)]
    have e0 : safe_list (PyVal.vList ([] : List PyVal)) = [] := rfl
    simp only [answerTransitions, e1, e2, e3, e4, e5, hget,
      safe_list_notAList v hv, e0]

/-- C6 witness: an intent whose `answers` field is a NaN float extracts
exactly like the same intent with `answers` set to the empty list. -/
theorem extract_transitions_malformed_field_witness :
    notAList (PyVal.vFloat none) = true
    ∧ extract_transitions [("answers", PyVal.vFloat none), ("redirect_to", PyVal.vStr "R")]
        = extract_transitions (dictSet [("answers", PyVal.vFloat none),
            ("redirect_to", PyVal.vStr "R")] "answers" (PyVal.vList [])) := by
  exact ⟨by decide,
    (extract_transitions_malformed_field
      [("answers", PyVal.vFloat none), ("redirect_to", PyVal.vStr "R")]
      (PyVal.vFloat none) (by decide)).1 rfl⟩

/-! ## Connected-component invariants (C9)

All invariants below hold for every fuel value, so they are independent
of the fuel bound chosen in `find_isolated_subgraphs`. -/

theorem iso_spec : ∀ (fuel : Nat),
    (∀ (adj : List (PyVal × List PyVal)) (node : PyVal) (visited comp : List PyVal),
      (∀ x ∈ visited, x ∈ (isoDfs adj fuel node visited comp).1)
      ∧ (∀ x ∈ comp, x ∈ (isoDfs adj fuel node visited comp).2)
      ∧ (∀ x ∈ (isoDfs adj fuel node visited comp).1,
          x ∈ visited ∨ x ∈ (isoDfs adj fuel node visited comp).2)
      ∧ (∀ x ∈ (isoDfs adj fuel node visited comp).2,
          x ∈ comp ∨ x ∈ (isoDfs adj fuel node visited comp).1)
      ∧ (node ∉ visited →
          ∀ x ∈ (isoDfs adj fuel node visited comp).2, x ∈ comp ∨ x ∉ visited))
    ∧ (∀ (adj : List (PyVal × List PyVal)) (ns : List PyVal) (visited comp : List PyVal),
      (∀ x ∈ visited, x ∈ (isoDfsList adj fuel ns visited comp).1)
      ∧ (∀ x ∈ comp, x ∈ (isoDfsList adj fuel ns visited comp).2)
      ∧ (∀ x ∈ (isoDfsList adj fuel ns visited comp).1,
          x ∈ visited ∨ x ∈ (isoDfsList adj fuel ns visited comp).2)
      ∧ (∀ x ∈ (isoDfsList adj fuel ns visited comp).2,
          x ∈ comp ∨ x ∈ (isoDfsList adj fuel ns visited comp).1)
      ∧ (∀ x ∈ (isoDfsList adj fuel ns visited comp).2, x ∈ comp ∨ x ∉ visited)) := by
  intro fuel
  induction fuel with
  | zero =>
      constructor
      · intro adj node visited comp
        exact ⟨fun x hx => hx, fun x hx => hx, fun x hx => Or.inl hx,
          fun x hx => Or.inl hx, fun _ x hx => Or.inl hx⟩
      · intro adj ns visited comp
        exact ⟨fun x hx => hx, fun x hx => hx, fun x hx => Or.inl hx,
          fun x hx => Or.inl hx, fun x hx => Or.inl hx⟩
  | succ f ih =>
      obtain ⟨ihD, ihL⟩ := ih
      constructor
      · intro adj node visited comp
        have hred : isoDfs adj (f + 1) node visited comp
            = isoDfsList adj f (adjGetP adj node)
                (insertNew node visited) (insertNew node comp) := rfl
        rw [hred]
        obtain ⟨l1, l2, l3, l4, l5⟩ := ihL adj (adjGetP adj node)
          (insertNew node visited) (insertNew node comp)
        refine ⟨?_, ?_, ?_, ?_, ?_⟩
        · exact fun x hx => l1 x ((mem_insertNew_iff x node visited).mpr (Or.inr hx))
        · exact fun x hx => l2 x ((mem_insertNew_iff x node comp).mpr (Or.inr hx))
        · intro x hx
          rcases l3 x hx with h1 | h2
          · rcases (mem_insertNew_iff x node visited).mp h1 with h0 | h3
            · exact Or.inr (h0 ▸ l2 node ((mem_insertNew_iff node node comp).mpr (Or.inl rfl)))
            · exact Or.inl h3
          · exact Or.inr h2
        · intro x hx
          rcases l4 x hx with h1 | h2
          · rcases (mem_insertNew_iff x node comp).mp h1 with h0 | h3
            · exact Or.inr (h0 ▸ l1 node ((mem_insertNew_iff node node visited).mpr (Or.inl rfl)))
            · exact Or.inl h3
          · exact Or.inr h2
        · intro hnv x hx
          rcases l5 x hx with h1 | h2
          · rcases (mem_insertNew_iff x node comp).mp h1 with h0 | h3
            · exact Or.inr (h0 ▸ hnv)
            · exact Or.inl h3
          · exact Or.inr (fun hxv => h2 ((mem_insertNew_iff x node visited).mpr (Or.inr hxv)))
      · intro adj ns visited comp
        cases ns with
        | nil =>
            exact ⟨fun x hx => hx, fun x hx => hx, fun x hx => Or.inl hx,
              fun x hx => Or.inl hx, fun x hx => Or.inl hx⟩
        | cons n ns =>
            by_cases hn : n ∈ visited
            · have hred : isoDfsList adj (f + 1) (n :: ns) visited comp
                  = isoDfsList adj f ns visited comp := by
                simp [isoDfsList, hn]
              rw [hred]
              exact ihL adj ns visited comp
            · have hred : isoDfsList adj (f + 1) (n :: ns) visited comp
                  = isoDfsList adj f ns (isoDfs adj f n visited comp).1
                      (isoDfs adj f n visited comp).2 := by
                simp [isoDfsList, hn]
              rw [hred]
              obtain ⟨d1, d2, d3, d4, d5⟩ := ihD adj n visited comp
              obtain ⟨l1, l2, l3, l4, l5⟩ := ihL adj ns
                (isoDfs adj f n visited comp).1 (isoDfs adj f n visited comp).2
              refine ⟨?_, ?_, ?_, ?_, ?_⟩
              · exact fun x hx => l1 x (d1 x hx)
              · exact fun x hx => l2 x (d2 x hx)
              · intro x hx
                rcases l3 x hx with h1 | h2
                · rcases d3 x h1 with h3 | h4
                  · exact Or.inl h3
                  · exact Or.inr (l2 x h4)
                · exact Or.inr h2
              · intro x hx
                rcases l4 x hx with h1 | h2
                · rcases d4 x h1 with h3 | h4
                  · exact Or.inl h3
                  · exact Or.inr (l1 x h4)
                · exact Or.inr h2
              · intro x hx
                rcases l5 x hx with h1 | h2
                · exact d5 hn x h1
                · exact Or.inr (fun hxv => h2 (d1 x hxv))

theorem isoStep_spec (adj : List (PyVal × List PyVal)) (f : Nat)
    (st : List PyVal × List (List PyVal)) (node : PyVal)
    (hP : (∀ x ∈ st.1, ∃ c ∈ st.2, x ∈ c)
      ∧ (∀ c ∈ st.2, ∀ x ∈ c, x ∈ st.1)
      ∧ List.Pairwise (fun c₁ c₂ => ∀ x, x ∈ c₁ → x ∉ c₂) st.2) :
    ((∀ x ∈ (isoStep adj (f + 1) st node).1, ∃ c ∈ (isoStep adj (f + 1) st node).2, x ∈ c)
      ∧ (∀ c ∈ (isoStep adj (f + 1) st node).2, ∀ x ∈ c, x ∈ (isoStep adj (f + 1) st node).1)
      ∧ List.Pairwise (fun c₁ c₂ => ∀ x, x ∈ c₁ → x ∉ c₂) (isoStep adj (f + 1) st node).2)
    ∧ (∀ x ∈ st.1, x ∈ (isoStep adj (f + 1) st node).1)
    ∧ node ∈ (isoStep adj (f + 1) st node).1 := by
  unfold isoStep
  by_cases hn : node ∈ st.1
  · rw [if_pos hn]
    exact ⟨hP, fun x hx => hx, hn⟩
  · rw [if_neg hn]
    obtain ⟨d1, d2, d3, d4, d5⟩ := (iso_spec (f + 1)).1 adj node st.1 []
    have hsub : ∀ x ∈ (isoDfs adj (f + 1) node st.1 []).2,
        x ∈ (isoDfs adj (f + 1) node st.1 []).1 := by
      intro x hx
      rcases d4 x hx with h1 | h2
      · cases h1
      · exact h2
    have hfresh : ∀ x ∈ (isoDfs adj (f + 1) node st.1 []).2, x ∉ st.1 := by
      intro x hx
      rcases d5 hn x hx with h1 | h2
      · cases h1
      · exact h2
    refine ⟨⟨?_, ?_, ?_⟩, ?_, ?_⟩
    · intro x hx
      rcases d3 x hx with h1 | h2
      · obtain ⟨c, hc, hxc⟩ := hP.1 x h1
        exact ⟨c, List.mem_append.mpr (Or.inl hc), hxc⟩
      · exact ⟨(isoDfs adj (f + 1) node st.1 []).2,
          List.mem_append.mpr (Or.inr (List.mem_singleton.mpr rfl)), h2⟩
    · intro c hc x hx
      rcases List.mem_append.mp hc with h1 | h2
      · exact d1 x (hP.2.1 c h1 x hx)
      · rw [List.mem_singleton] at h2
        exact hsub x (h2 ▸ hx)
    · rw [List.pairwise_append]
      refine ⟨hP.2.2, List.pairwise_singleton _ _, ?_⟩
      intro c hc c' hc' x hxc
      rw [List.mem_singleton] at hc'
      subst hc'
      exact fun hxc' => hfresh x hxc' (hP.2.1 c hc x hxc)
    · exact fun x hx => d1 x hx
    · have hmem : node ∈ insertNew node st.1 :=
        (mem_insertNew_iff node node st.1).mpr (Or.inl rfl)
      exact ((iso_spec f).2 adj (adjGetP adj node)
        (insertNew node st.1) (insertNew node [])).1 node hmem

theorem isoStep_mono (adj : List (PyVal × List PyVal)) (f : Nat)
    (st : List PyVal × List (List PyVal)) (node : PyVal) :
    (∀ x ∈ st.1, x ∈ (isoStep adj (f + 1) st node).1)
    ∧ node ∈ (isoStep adj (f + 1) st node).1 := by
  unfold isoStep
  by_cases hn : node ∈ st.1
  · rw [if_pos hn]
    exact ⟨fun x hx => hx, hn⟩
  · rw [if_neg hn]
    obtain ⟨d1, -, -, -, -⟩ := (iso_spec (f + 1)).1 adj node st.1 []
    refine ⟨fun x hx => d1 x hx, ?_⟩
    exact ((iso_spec f).2 adj (adjGetP adj node)
      (insertNew node st.1) (insertNew node [])).1 node
      ((mem_insertNew_iff node node st.1).mpr (Or.inl rfl))

theorem isoFold_visited_mono (adj : List (PyVal × List PyVal)) (f : Nat) :
    ∀ (nodes : List PyVal) (st : List PyVal × List (List PyVal)),
      ∀ x ∈ st.1, x ∈ (nodes.foldl (isoStep adj (f + 1)) st).1 := by
  intro nodes
  induction nodes with
  | nil => exact fun st x hx => hx
  | cons a nodes ih =>
      intro st x hx
      rw [List.foldl_cons]
      exact ih (isoStep adj (f + 1) st a) x ((isoStep_mono adj f st a).1 x hx)

theorem isoFold_spec (adj : List (PyVal × List PyVal)) (f : Nat) :
    ∀ (nodes : List PyVal) (st : List PyVal × List (List PyVal)),
      ((∀ x ∈ st.1, ∃ c ∈ st.2, x ∈ c)
        ∧ (∀ c ∈ st.2, ∀ x ∈ c, x ∈ st.1)
        ∧ List.Pairwise (fun c₁ c₂ => ∀ x, x ∈ c₁ → x ∉ c₂) st.2) →
      ((∀ x ∈ (nodes.foldl (isoStep adj (f + 1)) st).1,
          ∃ c ∈ (nodes.foldl (isoStep adj (f + 1)) st).2, x ∈ c)
        ∧ (∀ c ∈ (nodes.foldl (isoStep adj (f + 1)) st).2, ∀ x ∈ c,
            x ∈ (nodes.foldl (isoStep adj (f + 1)) st).1)
        ∧ List.Pairwise (fun c₁ c₂ => ∀ x, x ∈ c₁ → x ∉ c₂)
            (nodes.foldl (isoStep adj (f + 1)) st).2)
      ∧ (∀ n ∈ nodes, n ∈ (nodes.foldl (isoStep adj (f + 1)) st).1) := by
  intro nodes
  induction nodes with
  | nil =>
      intro st hP
      exact ⟨hP, fun n hn => absurd hn (List.not_mem_nil n)⟩
  | cons a nodes ih =>
      intro st hP
      obtain ⟨hP', hmono, hself⟩ := isoStep_spec adj f st a hP
      obtain ⟨hPf, hcov⟩ := ih (isoStep adj (f + 1) st a) hP'
      rw [List.foldl_cons]
      refine ⟨hPf, ?_⟩
      intro n hn
      rcases List.mem_cons.mp hn with h1 | h2
      · subst h1
        exact isoFold_visited_mono adj f nodes (isoStep adj (f + 1) st n) n hself
      · exact hcov n h2

theorem countP_eq_one_of_unique {α : Type} (p : α → Bool) (l : List α)
    (hex : ∃ c ∈ l, p c = true)
    (hu : List.Pairwise (fun a b => ¬(p a = true ∧ p b = true)) l) :
    l.countP p = 1 := by
  induction l with
  | nil =>
      obtain ⟨c, hc, -⟩ := hex
      cases hc
  | cons a l ih =>
      rw [List.pairwise_cons] at hu
      by_cases hp : p a = true
      · rw [List.countP_cons_of_pos p l hp]
        have hz : l.countP p = 0 := by
          rw [List.countP_eq_zero]
          exact fun b hb hpb => hu.1 b hb ⟨hp, hpb⟩
        rw [hz]
      · rw [List.countP_cons_of_neg p l hp]
        refine ih ?_ hu.2
        obtain ⟨c, hc, hpc⟩ := hex
        rcases List.mem_cons.mp hc with h1 | h2
        · exact absurd (h1 ▸ hpc) hp
        · exact ⟨c, h2, hpc⟩

/-- C9, amended: the components returned by `find_isolated_subgraphs` are
pairwise disjoint and every node of `graph['nodes']` appears in exactly
one of them; the union of the components may however exceed the node set
(see the counterexample), since the undirected DFS also walks to edge
endpoints that are not nodes. -/
theorem find_isolated_subgraphs_partition (g : Graph) :
    List.Pairwise (fun c₁ c₂ => ∀ x, x ∈ c₁ → x ∉ c₂) (find_isolated_subgraphs g)
    ∧ (∀ n ∈ g.nodes,
        (find_isolated_subgraphs g).countP (fun c => decide (n ∈ c)) = 1) := by
  have hv : 0 < (g.nodes.length + 2 * g.edges.length + 1)
      * (g.nodes.length + 2 * g.edges.length + 1) :=
    Nat.mul_pos (Nat.succ_pos _) (Nat.succ_pos _)
  obtain ⟨f, hf⟩ : ∃ f, (g.nodes.length + 2 * g.edges.length + 1)
      * (g.nodes.length + 2 * g.edges.length + 1) = f + 1 :=
    ⟨(g.nodes.length + 2 * g.edges.length + 1)
      * (g.nodes.length + 2 * g.edges.length + 1) - 1, by omega⟩
  have hunf : find_isolated_subgraphs g
      = (g.nodes.foldl (isoStep (undirectedAdj g.edges) (f + 1)) ([], [])).2 := by
    rw [find_isolated_subgraphs, ← hf]
  have h0 : (∀ x ∈ (([], []) : List PyVal × List (List PyVal)).1,
        ∃ c ∈ (([], []) : List PyVal × List (List PyVal)).2, x ∈ c)
      ∧ (∀ c ∈ (([], []) : List PyVal × List (List PyVal)).2,
          ∀ x ∈ c, x ∈ (([], []) : List PyVal × List (List PyVal)).1)
      ∧ List.Pairwise (fun c₁ c₂ => ∀ x, x ∈ c₁ → x ∉ c₂)
          (([], []) : List PyVal × List (List PyVal)).2 := by
    exact ⟨fun x hx => absurd hx (List.not_mem_nil x),
      fun c hc => absurd hc (List.not_mem_nil c), List.Pairwise.nil⟩
  obtain ⟨⟨hcover, hin, hdisj⟩, hnodes⟩ :=
    isoFold_spec (undirectedAdj g.edges) f g.nodes ([], []) h0
  constructor
  · rw [hunf]
    exact hdisj
  · intro n hn
    rw [hunf]
    refine countP_eq_one_of_unique _ _ ?_ ?_
    · obtain ⟨c, hc, hnc⟩ := hcover n (hnodes n hn)
      exact ⟨c, hc, decide_eq_true hnc⟩
    · refine hdisj.imp ?_
      intro c₁ c₂ h12 hcc
      exact h12 n (of_decide_eq_true hcc.1) (of_decide_eq_true hcc.2)

/-- C9 witness: on the counterexample graph the node `B` lies in exactly
one component. -/
theorem find_isolated_subgraphs_partition_witness :
    (find_isolated_subgraphs (Graph.mk [PyVal.vStr "B"]
        [(PyVal.vStr "X", PyVal.vStr "B")] [] [PyVal.vStr "B"]
        [(PyVal.vStr "B", ⟨PyVal.vStr "", PyVal.vStr "", false, false⟩)])).countP
      (fun c => decide (PyVal.vStr "B" ∈ c)) = 1 := by
  exact (find_isolated_subgraphs_partition (Graph.mk [PyVal.vStr "B"]
    [(PyVal.vStr "X", PyVal.vStr "B")] [] [PyVal.vStr "B"]
    [(PyVal.vStr "B", ⟨PyVal.vStr "", PyVal.vStr "", false, false⟩)])).2
    (PyVal.vStr "B") (by decide)

/-! ## Scanner lemmas (C5)

Symbolic-evaluation lemmas for the `re.findall` scanners: a scan over a
concrete prefix followed by an arbitrary whitespace-free target token. -/

theorem takeWhile_false {p : Char → Bool} : ∀ {l : List Char},
    (∀ c ∈ l, p c = false) → l.takeWhile p = [] := by
  intro l h
  cases l with
  | nil => rfl
  | cons c cs => simp [List.takeWhile_cons, h c (by simp)]

theorem dropWhile_false {p : Char → Bool} : ∀ {l : List Char},
    (∀ c ∈ l, p c = false) → l.dropWhile p = l := by
  intro l h
  cases l with
  | nil => rfl
  | cons c cs => simp [List.dropWhile_cons, h c (by simp)]

theorem takeWhile_true {p : Char → Bool} : ∀ {l : List Char},
    (∀ c ∈ l, p c = true) → l.takeWhile p = l := by
  intro l
  induction l with
  | nil => intro _; rfl
  | cons c cs ih =>
      intro h
      simp [List.takeWhile_cons, h c (by simp),
        ih (fun x hx => h x (by simp [hx]))]

theorem dropWhile_true {p : Char → Bool} : ∀ {l : List Char},
    (∀ c ∈ l, p c = true) → l.dropWhile p = [] := by
  intro l
  induction l with
  | nil => intro _; rfl
  | cons c cs ih =>
      intro h
      simp [List.dropWhile_cons, h c (by simp),
        ih (fun x hx => h x (by simp [hx]))]

theorem matchToken_sub (ci : Bool) : ∀ (tok l r : List Char),
    matchToken ci tok l = some r → ∀ c ∈ r, c ∈ l := by
  intro tok
  induction tok with
  | nil =>
      intro l r h
      cases h
      exact fun c hc => hc
  | cons x xs ih =>
      intro l r h
      cases l with
      | nil => cases h
      | cons c cs =>
          by_cases hm : charMatch ci x c = true
          · rw [show matchToken ci (x :: xs) (c :: cs) = matchToken ci xs cs from by
              simp [matchToken, hm]] at h
            exact fun y hy => by simp [ih cs r h y hy]
          · rw [show matchToken ci (x :: xs) (c :: cs) = none from by
              simp [matchToken, hm]] at h
            cases h

theorem matchAt_none_of_nospace (ci : Bool) (tok l : List Char)
    (hl : ∀ c ∈ l, isPySpace c = false) : matchAt ci tok l = none := by
  cases hm : matchToken ci tok l with
  | none => simp [matchAt, hm]
  | some rest =>
      have hr : ∀ c ∈ rest, isPySpace c = false :=
        fun c hc => hl c (matchToken_sub ci tok l rest hm c hc)
      simp [matchAt, hm, takeWhile_false hr]

theorem matchAt_token_space_target {ci : Bool} {tok cs t : List Char}
    (hm : matchToken ci tok cs = some (' ' :: t)) (ht0 : t ≠ [])
    (hts : ∀ c ∈ t, isPySpace c = false) : matchAt ci tok cs = some (t, []) := by
  have hsp : isPySpace ' ' = true := rfl
  have e1 : (' ' :: t).takeWhile isPySpace = ' ' :: t.takeWhile isPySpace := by
    simp [List.takeWhile_cons, hsp]
  have e2 : (' ' :: t).dropWhile isPySpace = t.dropWhile isPySpace := by
    simp [List.dropWhile_cons, hsp]
  have e3 : t.takeWhile (fun c => !isPySpace c) = t :=
    takeWhile_true (fun c hc => by simp [hts c hc])
  have e4 : t.dropWhile (fun c => !isPySpace c) = [] :=
    dropWhile_true (fun c hc => by simp [hts c hc])
  have e5 : t.isEmpty = false := by
    cases t with
    | nil => exact absurd rfl ht0
    | cons c cs => rfl
  simp [matchAt, hm, e1, e2, e3, e4, e5, takeWhile_false hts, dropWhile_false hts]

theorem scanPlainGo_nil (ci : Bool) (tok : List Char) :
    ∀ f, scanPlainGo ci tok f [] = [] := by
  intro f
  cases f with
  | zero => rfl
  | succ f => rfl

theorem scanPlainGo_step_none {ci : Bool} {tok : List Char} {c : Char}
    {cs : List Char} {f : Nat} (h : matchAt ci tok (c :: cs) = none) :
    scanPlainGo ci tok (f + 1) (c :: cs) = scanPlainGo ci tok f cs := by
  simp [scanPlainGo, h]

theorem scanPlainGo_step_some {ci : Bool} {tok : List Char} {c : Char}
    {cs tgt rest : List Char} {f : Nat}
    (h : matchAt ci tok (c :: cs) = some (tgt, rest)) :
    scanPlainGo ci tok (f + 1) (c :: cs) = tgt :: scanPlainGo ci tok f rest := by
  simp [scanPlainGo, h]

theorem scanPlainGo_nospace (ci : Bool) (tok : List Char) :
    ∀ (l : List Char), (∀ c ∈ l, isPySpace c = false) →
      ∀ f, scanPlainGo ci tok f l = [] := by
  intro l
  induction l with
  | nil => exact fun _ => scanPlainGo_nil ci tok
  | cons c cs ih =>
      intro hl f
      cases f with
      | zero => rfl
      | succ f =>
          rw [scanPlainGo_step_none (matchAt_none_of_nospace ci tok (c :: cs) hl)]
          exact ih (fun x hx => hl x (by simp [hx])) f

theorem scanPlainGo_walk (ci : Bool) (tok : List Char) :
    ∀ (pre t : List Char),
      (∀ p, p < pre.length → matchAt ci tok (pre.drop p ++ t) = none) →
      scanPlainGo ci tok (pre ++ t).length (pre ++ t)
        = scanPlainGo ci tok t.length t := by
  intro pre
  induction pre with
  | nil => exact fun t _ => rfl
  | cons c pre ih =>
      intro t hno
      have h0 : matchAt ci tok (c :: (pre ++ t)) = none := hno 0 (Nat.succ_pos _)
      rw [List.cons_append, List.length_cons, scanPlainGo_step_none h0]
      exact ih t (fun p hp => hno (p + 1) (by simp only [List.length_cons]; omega))

theorem scanBoundaryGo_nil (ci : Bool) (tok : List Char) :
    ∀ f, scanBoundaryGo ci tok f [] = [] := by
  intro f
  cases f with
  | zero => rfl
  | succ f => rfl

theorem scanBoundaryGo_step_nonspace {ci : Bool} {tok : List Char} {c : Char}
    {cs : List Char} {f : Nat} (hc : isPySpace c = false) :
    scanBoundaryGo ci tok (f + 1) (c :: cs) = scanBoundaryGo ci tok f cs := by
  simp [scanBoundaryGo, hc]

theorem scanBoundaryGo_step_space {ci : Bool} {tok : List Char} {c : Char}
    {cs : List Char} {f : Nat} (hc : isPySpace c = true)
    (h : matchAt ci tok cs = none) :
    scanBoundaryGo ci tok (f + 1) (c :: cs) = scanBoundaryGo ci tok f cs := by
  simp [scanBoundaryGo, hc, h]

theorem scanBoundaryGo_nospace (ci : Bool) (tok : List Char) :
    ∀ (l : List Char), (∀ c ∈ l, isPySpace c = false) →
      ∀ f, scanBoundaryGo ci tok f l = [] := by
  intro l
  induction l with
  | nil => exact fun _ => scanBoundaryGo_nil ci tok
  | cons c cs ih =>
      intro hl f
      cases f with
      | zero => rfl
      | succ f =>
          rw [scanBoundaryGo_step_nonspace (hl c (by simp))]
          exact ih (fun x hx => hl x (by simp [hx])) f

theorem scanBoundaryGo_walk (ci : Bool) (tok : List Char) :
    ∀ (pre t : List Char),
      (∀ p, p < pre.length → isPySpace (pre.getD p ' ') = true →
        matchAt ci tok (pre.drop (p + 1) ++ t) = none) →
      scanBoundaryGo ci tok (pre ++ t).length (pre ++ t)
        = scanBoundaryGo ci tok t.length t := by
  intro pre
  induction pre with
  | nil => exact fun t _ => rfl
  | cons c pre ih =>
      intro t hno
      rw [List.cons_append, List.length_cons]
      by_cases hc : isPySpace c = true
      · have h0 : matchAt ci tok (pre ++ t) = none := hno 0 (Nat.succ_pos _) hc
        rw [scanBoundaryGo_step_space hc h0]
        exact ih t (fun p hp hs => hno (p + 1) (by simp only [List.length_cons]; omega) hs)
      · have hc' : isPySpace c = false := by
          revert hc
          cases isPySpace c <;> simp
        rw [scanBoundaryGo_step_nonspace hc']
        exact ih t (fun p hp hs => hno (p + 1) (by simp only [List.length_cons]; omega) hs)

theorem scanBoundary_none {ci : Bool} {tok cs : List Char}
    (h : matchAt ci tok cs = none) :
    scanBoundary ci tok cs = scanBoundaryGo ci tok cs.length cs := by
  simp [scanBoundary, h]

theorem scanBoundary_some {ci : Bool} {tok cs tgt rest : List Char}
    (h : matchAt ci tok cs = some (tgt, rest)) :
    scanBoundary ci tok cs = tgt :: scanBoundaryGo ci tok rest.length rest := by
  simp [scanBoundary, h]

theorem extract_redirect_from_text_vStr (s : String) (h : s ≠ "") :
    extract_redirect_from_text (PyVal.vStr s)
      = .ok ((scanPlain false "REDIRECT_TO_INTENT".toList s.toList
          ++ scanBoundary true "GOTO".toList s.toList
          ++ scanPlain true "JUMP_TO".toList s.toList
          ++ scanPlain true "/goto".toList s.toList
          ++ scanPlain true "CALL_INTENT".toList s.toList).map String.mk) := by
  have htr : (PyVal.vStr s).truthy = true := decide_eq_true h
  unfold extract_redirect_from_text
  rw [if_neg (by rw [htr]; exact fun hh => Bool.noConfusion hh)]

/-- **C5** (amended).  Command scanning is case-insensitive for the `GOTO`,
`JUMP_TO`, `/goto` and `CALL_INTENT` patterns (compiled with `re.IGNORECASE`),
but NOT for `REDIRECT_TO_INTENT` (pattern 1 is compiled without the flag):
for any nonempty whitespace-free target `t`, the mixed-case commands
`gOtO`, `jUmP_tO`, `/GoTo`, `cAlL_iNtEnT` and the exact-case
`REDIRECT_TO_INTENT` each extract exactly `[t]`, while the lowercase
`redirect_to_intent` extracts nothing. -/
theorem redirect_token_case_sensitivity (t : List Char) (ht0 : t ≠ [])
    (hts : ∀ c ∈ t, isPySpace c = false) :
    extract_redirect_from_text (PyVal.vStr (String.mk ('g' :: 'O' :: 't' :: 'O' :: ' ' :: t)))
        = .ok [String.mk t]
    ∧ extract_redirect_from_text (PyVal.vStr (String.mk ('j' :: 'U' :: 'm' :: 'P' :: '_' :: 't' :: 'O' :: ' ' :: t)))
        = .ok [String.mk t]
    ∧ extract_redirect_from_text (PyVal.vStr (String.mk ('/' :: 'G' :: 'o' :: 'T' :: 'o' :: ' ' :: t)))
        = .ok [String.mk t]
    ∧ extract_redirect_from_text (PyVal.vStr (String.mk ('c' :: 'A' :: 'l' :: 'L' :: '_' :: 'i' :: 'N' :: 't' :: 'E' :: 'n' :: 'T' :: ' ' :: t)))
        = .ok [String.mk t]
    ∧ extract_redirect_from_text (PyVal.vStr (String.mk ('R' :: 'E' :: 'D' :: 'I' :: 'R' :: 'E' :: 'C' :: 'T' :: '_' :: 'T' :: 'O' :: '_' :: 'I' :: 'N' :: 'T' :: 'E' :: 'N' :: 'T' :: ' ' :: t)))
        = .ok [String.mk t]
    ∧ extract_redirect_from_text (PyVal.vStr (String.mk ('r' :: 'e' :: 'd' :: 'i' :: 'r' :: 'e' :: 'c' :: 't' :: '_' :: 't' :: 'o' :: '_' :: 'i' :: 'n' :: 't' :: 'e' :: 'n' :: 't' :: ' ' :: t)))
        = .ok [] := by
  refine ⟨?_, ?_, ?_, ?_, ?_, ?_⟩
  · have hne : String.mk ('g' :: 'O' :: 't' :: 'O' :: ' ' :: t) ≠ "" :=
      fun hh => List.noConfusion (congrArg String.data hh)
    have h1 : scanPlain false "REDIRECT_TO_INTENT".toList ('g' :: 'O' :: 't' :: 'O' :: ' ' :: t) = [] := by
      unfold scanPlain
      rw [show ('g' :: 'O' :: 't' :: 'O' :: ' ' :: t : List Char) = ['g', 'O', 't', 'O', ' '] ++ t from rfl]
      rw [scanPlainGo_walk false "REDIRECT_TO_INTENT".toList ['g', 'O', 't', 'O', ' '] t (by
        intro p hp
        simp at hp
        interval_cases p <;> rfl)]
      exact scanPlainGo_nospace false "REDIRECT_TO_INTENT".toList t hts t.length
    have h2 : scanBoundary true "GOTO".toList ('g' :: 'O' :: 't' :: 'O' :: ' ' :: t) = [t] := by
      have hm : matchToken true "GOTO".toList ('g' :: 'O' :: 't' :: 'O' :: ' ' :: t) = some (' ' :: t) := rfl
      rw [scanBoundary_some (matchAt_token_space_target hm ht0 hts),
        scanBoundaryGo_nil]
    have h3 : scanPlain true "JUMP_TO".toList ('g' :: 'O' :: 't' :: 'O' :: ' ' :: t) = [] := by
      unfold scanPlain
      rw [show ('g' :: 'O' :: 't' :: 'O' :: ' ' :: t : List Char) = ['g', 'O', 't', 'O', ' '] ++ t from rfl]
      rw [scanPlainGo_walk true "JUMP_TO".toList ['g', 'O', 't', 'O', ' '] t (by
        intro p hp
        simp at hp
        interval_cases p <;> rfl)]
      exact scanPlainGo_nospace true "JUMP_TO".toList t hts t.length
    have h4 : scanPlain true "/goto".toList ('g' :: 'O' :: 't' :: 'O' :: ' ' :: t) = [] := by
      unfold scanPlain
      rw [show ('g' :: 'O' :: 't' :: 'O' :: ' ' :: t : List Char) = ['g', 'O', 't', 'O', ' '] ++ t from rfl]
      rw [scanPlainGo_walk true "/goto".toList ['g', 'O', 't', 'O', ' '] t (by
        intro p hp
        simp at hp
        interval_cases p <;> rfl)]
      exact scanPlainGo_nospace true "/goto".toList t hts t.length
    have h5 : scanPlain true "CALL_INTENT".toList ('g' :: 'O' :: 't' :: 'O' :: ' ' :: t) = [] := by
      unfold scanPlain
      rw [show ('g' :: 'O' :: 't' :: 'O' :: ' ' :: t : List Char) = ['g', 'O', 't', 'O', ' '] ++ t from rfl]
      rw [scanPlainGo_walk true "CALL_INTENT".toList ['g', 'O', 't', 'O', ' '] t (by
        intro p hp
        simp at hp
        interval_cases p <;> rfl)]
      exact scanPlainGo_nospace true "CALL_INTENT".toList t hts t.length
    rw [extract_redirect_from_text_vStr (String.mk ('g' :: 'O' :: 't' :: 'O' :: ' ' :: t)) hne]
    rw [show (String.mk ('g' :: 'O' :: 't' :: 'O' :: ' ' :: t)).toList = ('g' :: 'O' :: 't' :: 'O' :: ' ' :: t : List Char) from rfl]
    rw [h1, h2, h3, h4, h5]
    try rfl
  · have hne : String.mk ('j' :: 'U' :: 'm' :: 'P' :: '_' :: 't' :: 'O' :: ' ' :: t) ≠ "" :=
      fun hh => List.noConfusion (congrArg String.data hh)
    have h1 : scanPlain false "REDIRECT_TO_INTENT".toList ('j' :: 'U' :: 'm' :: 'P' :: '_' :: 't' :: 'O' :: ' ' :: t) = [] := by
      unfold scanPlain
      rw [show ('j' :: 'U' :: 'm' :: 'P' :: '_' :: 't' :: 'O' :: ' ' :: t : List Char) = ['j', 'U', 'm', 'P', '_', 't', 'O', ' '] ++ t from rfl]
      rw [scanPlainGo_walk false "REDIRECT_TO_INTENT".toList ['j', 'U', 'm', 'P', '_', 't', 'O', ' '] t (by
        intro p hp
        simp at hp
        interval_cases p <;> rfl)]
      exact scanPlainGo_nospace false "REDIRECT_TO_INTENT".toList t hts t.length
    have h2 : scanBoundary true "GOTO".toList ('j' :: 'U' :: 'm' :: 'P' :: '_' :: 't' :: 'O' :: ' ' :: t) = [] := by
      have hm0 : matchAt true "GOTO".toList ('j' :: 'U' :: 'm' :: 'P' :: '_' :: 't' :: 'O' :: ' ' :: t) = none := rfl
      rw [scanBoundary_none hm0]
      rw [show ('j' :: 'U' :: 'm' :: 'P' :: '_' :: 't' :: 'O' :: ' ' :: t : List Char) = ['j', 'U', 'm', 'P', '_', 't', 'O', ' '] ++ t from rfl]
      rw [scanBoundaryGo_walk true "GOTO".toList ['j', 'U', 'm', 'P', '_', 't', 'O', ' '] t (by
        intro p hp hsp
        simp at hp
        interval_cases p <;>
          first
            | exact absurd hsp (by decide)
            | exact matchAt_none_of_nospace true "GOTO".toList t hts)]
      exact scanBoundaryGo_nospace true "GOTO".toList t hts t.length
    have h3 : scanPlain true "JUMP_TO".toList ('j' :: 'U' :: 'm' :: 'P' :: '_' :: 't' :: 'O' :: ' ' :: t) = [t] := by
      have hm : matchToken true "JUMP_TO".toList ('j' :: 'U' :: 'm' :: 'P' :: '_' :: 't' :: 'O' :: ' ' :: t) = some (' ' :: t) := rfl
      unfold scanPlain
      rw [List.length_cons,
        scanPlainGo_step_some (matchAt_token_space_target hm ht0 hts),
        scanPlainGo_nil]
    have h4 : scanPlain true "/goto".toList ('j' :: 'U' :: 'm' :: 'P' :: '_' :: 't' :: 'O' :: ' ' :: t) = [] := by
      unfold scanPlain
      rw [show ('j' :: 'U' :: 'm' :: 'P' :: '_' :: 't' :: 'O' :: ' ' :: t : List Char) = ['j', 'U', 'm', 'P', '_', 't', 'O', ' '] ++ t from rfl]
      rw [scanPlainGo_walk true "/goto".toList ['j', 'U', 'm', 'P', '_', 't', 'O', ' '] t (by
        intro p hp
        simp at hp
        interval_cases p <;> rfl)]
      exact scanPlainGo_nospace true "/goto".toList t hts t.length
    have h5 : scanPlain true "CALL_INTENT".toList ('j' :: 'U' :: 'm' :: 'P' :: '_' :: 't' :: 'O' :: ' ' :: t) = [] := by
      unfold scanPlain
      rw [show ('j' :: 'U' :: 'm' :: 'P' :: '_' :: 't' :: 'O' :: ' ' :: t : List Char) = ['j', 'U', 'm', 'P', '_', 't', 'O', ' '] ++ t from rfl]
      rw [scanPlainGo_walk true "CALL_INTENT".toList ['j', 'U', 'm', 'P', '_', 't', 'O', ' '] t (by
        intro p hp
        simp at hp
        interval_cases p <;> rfl)]
      exact scanPlainGo_nospace true "CALL_INTENT".toList t hts t.length
    rw [extract_redirect_from_text_vStr (String.mk ('j' :: 'U' :: 'm' :: 'P' :: '_' :: 't' :: 'O' :: ' ' :: t)) hne]
    rw [show (String.mk ('j' :: 'U' :: 'm' :: 'P' :: '_' :: 't' :: 'O' :: ' ' :: t)).toList = ('j' :: 'U' :: 'm' :: 'P' :: '_' :: 't' :: 'O' :: ' ' :: t : List Char) from rfl]
    rw [h1, h2, h3, h4, h5]
    try rfl
  · have hne : String.mk ('/' :: 'G' :: 'o' :: 'T' :: 'o' :: ' ' :: t) ≠ "" :=
      fun hh => List.noConfusion (congrArg String.data hh)
    have h1 : scanPlain false "REDIRECT_TO_INTENT".toList ('/' :: 'G' :: 'o' :: 'T' :: 'o' :: ' ' :: t) = [] := by
      unfold scanPlain
      rw [show ('/' :: 'G' :: 'o' :: 'T' :: 'o' :: ' ' :: t : List Char) = ['/', 'G', 'o', 'T', 'o', ' '] ++ t from rfl]
      rw [scanPlainGo_walk false "REDIRECT_TO_INTENT".toList ['/', 'G', 'o', 'T', 'o', ' '] t (by
        intro p hp
        simp at hp
        interval_cases p <;> rfl)]
      exact scanPlainGo_nospace false "REDIRECT_TO_INTENT".toList t hts t.length
    have h2 : scanBoundary true "GOTO".toList ('/' :: 'G' :: 'o' :: 'T' :: 'o' :: ' ' :: t) = [] := by
      have hm0 : matchAt true "GOTO".toList ('/' :: 'G' :: 'o' :: 'T' :: 'o' :: ' ' :: t) = none := rfl
      rw [scanBoundary_none hm0]
      rw [show ('/' :: 'G' :: 'o' :: 'T' :: 'o' :: ' ' :: t : List Char) = ['/', 'G', 'o', 'T', 'o', ' '] ++ t from rfl]
      rw [scanBoundaryGo_walk true "GOTO".toList ['/', 'G', 'o', 'T', 'o', ' '] t (by
        intro p hp hsp
        simp at hp
        interval_cases p <;>
          first
            | exact absurd hsp (by decide)
            | exact matchAt_none_of_nospace true "GOTO".toList t hts)]
      exact scanBoundaryGo_nospace true "GOTO".toList t hts t.length
    have h3 : scanPlain true "JUMP_TO".toList ('/' :: 'G' :: 'o' :: 'T' :: 'o' :: ' ' :: t) = [] := by
      unfold scanPlain
      rw [show ('/' :: 'G' :: 'o' :: 'T' :: 'o' :: ' ' :: t : List Char) = ['/', 'G', 'o', 'T', 'o', ' '] ++ t from rfl]
      rw [scanPlainGo_walk true "JUMP_TO".toList ['/', 'G', 'o', 'T', 'o', ' '] t (by
        intro p hp
        simp at hp
        interval_cases p <;> rfl)]
      exact scanPlainGo_nospace true "JUMP_TO".toList t hts t.length
    have h4 : scanPlain true "/goto".toList ('/' :: 'G' :: 'o' :: 'T' :: 'o' :: ' ' :: t) = [t] := by
      have hm : matchToken true "/goto".toList ('/' :: 'G' :: 'o' :: 'T' :: 'o' :: ' ' :: t) = some (' ' :: t) := rfl
      unfold scanPlain
      rw [List.length_cons,
        scanPlainGo_step_some (matchAt_token_space_target hm ht0 hts),
        scanPlainGo_nil]
    have h5 : scanPlain true "CALL_INTENT".toList ('/' :: 'G' :: 'o' :: 'T' :: 'o' :: ' ' :: t) = [] := by
      unfold scanPlain
      rw [show ('/' :: 'G' :: 'o' :: 'T' :: 'o' :: ' ' :: t : List Char) = ['/', 'G', 'o', 'T', 'o', ' '] ++ t from rfl]
      rw [scanPlainGo_walk true "CALL_INTENT".toList ['/', 'G', 'o', 'T', 'o', ' '] t (by
        intro p hp
        simp at hp
        interval_cases p <;> rfl)]
      exact scanPlainGo_nospace true "CALL_INTENT".toList t hts t.length
    rw [extract_redirect_from_text_vStr (String.mk ('/' :: 'G' :: 'o' :: 'T' :: 'o' :: ' ' :: t)) hne]
    rw [show (String.mk ('/' :: 'G' :: 'o' :: 'T' :: 'o' :: ' ' :: t)).toList = ('/' :: 'G' :: 'o' :: 'T' :: 'o' :: ' ' :: t : List Char) from rfl]
    rw [h1, h2, h3, h4, h5]
    try rfl
  · have hne : String.mk ('c' :: 'A' :: 'l' :: 'L' :: '_' :: 'i' :: 'N' :: 't' :: 'E' :: 'n' :: 'T' :: ' ' :: t) ≠ "" :=
      fun hh => List.noConfusion (congrArg String.data hh)
    have h1 : scanPlain false "REDIRECT_TO_INTENT".toList ('c' :: 'A' :: 'l' :: 'L' :: '_' :: 'i' :: 'N' :: 't' :: 'E' :: 'n' :: 'T' :: ' ' :: t) = [] := by
      unfold scanPlain
      rw [show ('c' :: 'A' :: 'l' :: 'L' :: '_' :: 'i' :: 'N' :: 't' :: 'E' :: 'n' :: 'T' :: ' ' :: t : List Char) = ['c', 'A', 'l', 'L', '_', 'i', 'N', 't', 'E', 'n', 'T', ' '] ++ t from rfl]
      rw [scanPlainGo_walk false "REDIRECT_TO_INTENT".toList ['c', 'A', 'l', 'L', '_', 'i', 'N', 't', 'E', 'n', 'T', ' '] t (by
        intro p hp
        simp at hp
        interval_cases p <;> rfl)]
      exact scanPlainGo_nospace false "REDIRECT_TO_INTENT".toList t hts t.length
    have h2 : scanBoundary true "GOTO".toList ('c' :: 'A' :: 'l' :: 'L' :: '_' :: 'i' :: 'N' :: 't' :: 'E' :: 'n' :: 'T' :: ' ' :: t) = [] := by
      have hm0 : matchAt true "GOTO".toList ('c' :: 'A' :: 'l' :: 'L' :: '_' :: 'i' :: 'N' :: 't' :: 'E' :: 'n' :: 'T' :: ' ' :: t) = none := rfl
      rw [scanBoundary_none hm0]
      rw [show ('c' :: 'A' :: 'l' :: 'L' :: '_' :: 'i' :: 'N' :: 't' :: 'E' :: 'n' :: 'T' :: ' ' :: t : List Char) = ['c', 'A', 'l', 'L', '_', 'i', 'N', 't', 'E', 'n', 'T', ' '] ++ t from rfl]
      rw [scanBoundaryGo_walk true "GOTO".toList ['c', 'A', 'l', 'L', '_', 'i', 'N', 't', 'E', 'n', 'T', ' '] t (by
        intro p hp hsp
        simp at hp
        interval_cases p <;>
          first
            | exact absurd hsp (by decide)
            | exact matchAt_none_of_nospace true "GOTO".toList t hts)]
      exact scanBoundaryGo_nospace true "GOTO".toList t hts t.length
    have h3 : scanPlain true "JUMP_TO".toList ('c' :: 'A' :: 'l' :: 'L' :: '_' :: 'i' :: 'N' :: 't' :: 'E' :: 'n' :: 'T' :: ' ' :: t) = [] := by
      unfold scanPlain
      rw [show ('c' :: 'A' :: 'l' :: 'L' :: '_' :: 'i' :: 'N' :: 't' :: 'E' :: 'n' :: 'T' :: ' ' :: t : List Char) = ['c', 'A', 'l', 'L', '_', 'i', 'N', 't', 'E', 'n', 'T', ' '] ++ t from rfl]
      rw [scanPlainGo_walk true "JUMP_TO".toList ['c', 'A', 'l', 'L', '_', 'i', 'N', 't', 'E', 'n', 'T', ' '] t (by
        intro p hp
        simp at hp
        interval_cases p <;> rfl)]
      exact scanPlainGo_nospace true "JUMP_TO".toList t hts t.length
    have h4 : scanPlain true "/goto".toList ('c' :: 'A' :: 'l' :: 'L' :: '_' :: 'i' :: 'N' :: 't' :: 'E' :: 'n' :: 'T' :: ' ' :: t) = [] := by
      unfold scanPlain
      rw [show ('c' :: 'A' :: 'l' :: 'L' :: '_' :: 'i' :: 'N' :: 't' :: 'E' :: 'n' :: 'T' :: ' ' :: t : List Char) = ['c', 'A', 'l', 'L', '_', 'i', 'N', 't', 'E', 'n', 'T', ' '] ++ t from rfl]
      rw [scanPlainGo_walk true "/goto".toList ['c', 'A', 'l', 'L', '_', 'i', 'N', 't', 'E', 'n', 'T', ' '] t (by
        intro p hp
        simp at hp
        interval_cases p <;> rfl)]
      exact scanPlainGo_nospace true "/goto".toList t hts t.length
    have h5 : scanPlain true "CALL_INTENT".toList ('c' :: 'A' :: 'l' :: 'L' :: '_' :: 'i' :: 'N' :: 't' :: 'E' :: 'n' :: 'T' :: ' ' :: t) = [t] := by
      have hm : matchToken true "CALL_INTENT".toList ('c' :: 'A' :: 'l' :: 'L' :: '_' :: 'i' :: 'N' :: 't' :: 'E' :: 'n' :: 'T' :: ' ' :: t) = some (' ' :: t) := rfl
      unfold scanPlain
      rw [List.length_cons,
        scanPlainGo_step_some (matchAt_token_space_target hm ht0 hts),
        scanPlainGo_nil]
    rw [extract_redirect_from_text_vStr (String.mk ('c' :: 'A' :: 'l' :: 'L' :: '_' :: 'i' :: 'N' :: 't' :: 'E' :: 'n' :: 'T' :: ' ' :: t)) hne]
    rw [show (String.mk ('c' :: 'A' :: 'l' :: 'L' :: '_' :: 'i' :: 'N' :: 't' :: 'E' :: 'n' :: 'T' :: ' ' :: t)).toList = ('c' :: 'A' :: 'l' :: 'L' :: '_' :: 'i' :: 'N' :: 't' :: 'E' :: 'n' :: 'T' :: ' ' :: t : List Char) from rfl]
    rw [h1, h2, h3, h4, h5]
    try rfl
  · have hne : String.mk ('R' :: 'E' :: 'D' :: 'I' :: 'R' :: 'E' :: 'C' :: 'T' :: '_' :: 'T' :: 'O' :: '_' :: 'I' :: 'N' :: 'T' :: 'E' :: 'N' :: 'T' :: ' ' :: t) ≠ "" :=
      fun hh => List.noConfusion (congrArg String.data hh)
    have h1 : scanPlain false "REDIRECT_TO_INTENT".toList ('R' :: 'E' :: 'D' :: 'I' :: 'R' :: 'E' :: 'C' :: 'T' :: '_' :: 'T' :: 'O' :: '_' :: 'I' :: 'N' :: 'T' :: 'E' :: 'N' :: 'T' :: ' ' :: t) = [t] := by
      have hm : matchToken false "REDIRECT_TO_INTENT".toList ('R' :: 'E' :: 'D' :: 'I' :: 'R' :: 'E' :: 'C' :: 'T' :: '_' :: 'T' :: 'O' :: '_' :: 'I' :: 'N' :: 'T' :: 'E' :: 'N' :: 'T' :: ' ' :: t) = some (' ' :: t) := rfl
      unfold scanPlain
      rw [List.length_cons,
        scanPlainGo_step_some (matchAt_token_space_target hm ht0 hts),
        scanPlainGo_nil]
    have h2 : scanBoundary true "GOTO".toList ('R' :: 'E' :: 'D' :: 'I' :: 'R' :: 'E' :: 'C' :: 'T' :: '_' :: 'T' :: 'O' :: '_' :: 'I' :: 'N' :: 'T' :: 'E' :: 'N' :: 'T' :: ' ' :: t) = [] := by
      have hm0 : matchAt true "GOTO".toList ('R' :: 'E' :: 'D' :: 'I' :: 'R' :: 'E' :: 'C' :: 'T' :: '_' :: 'T' :: 'O' :: '_' :: 'I' :: 'N' :: 'T' :: 'E' :: 'N' :: 'T' :: ' ' :: t) = none := rfl
      rw [scanBoundary_none hm0]
      rw [show ('R' :: 'E' :: 'D' :: 'I' :: 'R' :: 'E' :: 'C' :: 'T' :: '_' :: 'T' :: 'O' :: '_' :: 'I' :: 'N' :: 'T' :: 'E' :: 'N' :: 'T' :: ' ' :: t : List Char) = ['R', 'E', 'D', 'I', 'R', 'E', 'C', 'T', '_', 'T', 'O', '_', 'I', 'N', 'T', 'E', 'N', 'T', ' '] ++ t from rfl]
      rw [scanBoundaryGo_walk true "GOTO".toList ['R', 'E', 'D', 'I', 'R', 'E', 'C', 'T', '_', 'T', 'O', '_', 'I', 'N', 'T', 'E', 'N', 'T', ' '] t (by
        intro p hp hsp
        simp at hp
        interval_cases p <;>
          first
            | exact absurd hsp (by decide)
            | exact matchAt_none_of_nospace true "GOTO".toList t hts)]
      exact scanBoundaryGo_nospace true "GOTO".toList t hts t.length
    have h3 : scanPlain true "JUMP_TO".toList ('R' :: 'E' :: 'D' :: 'I' :: 'R' :: 'E' :: 'C' :: 'T' :: '_' :: 'T' :: 'O' :: '_' :: 'I' :: 'N' :: 'T' :: 'E' :: 'N' :: 'T' :: ' ' :: t) = [] := by
      unfold scanPlain
      rw [show ('R' :: 'E' :: 'D' :: 'I' :: 'R' :: 'E' :: 'C' :: 'T' :: '_' :: 'T' :: 'O' :: '_' :: 'I' :: 'N' :: 'T' :: 'E' :: 'N' :: 'T' :: ' ' :: t : List Char) = ['R', 'E', 'D', 'I', 'R', 'E', 'C', 'T', '_', 'T', 'O', '_', 'I', 'N', 'T', 'E', 'N', 'T', ' '] ++ t from rfl]
      rw [scanPlainGo_walk true "JUMP_TO".toList ['R', 'E', 'D', 'I', 'R', 'E', 'C', 'T', '_', 'T', 'O', '_', 'I', 'N', 'T', 'E', 'N', 'T', ' '] t (by
        intro p hp
        simp at hp
        interval_cases p <;> rfl)]
      exact scanPlainGo_nospace true "JUMP_TO".toList t hts t.length
    have h4 : scanPlain true "/goto".toList ('R' :: 'E' :: 'D' :: 'I' :: 'R' :: 'E' :: 'C' :: 'T' :: '_' :: 'T' :: 'O' :: '_' :: 'I' :: 'N' :: 'T' :: 'E' :: 'N' :: 'T' :: ' ' :: t) = [] := by
      unfold scanPlain
      rw [show ('R' :: 'E' :: 'D' :: 'I' :: 'R' :: 'E' :: 'C' :: 'T' :: '_' :: 'T' :: 'O' :: '_' :: 'I' :: 'N' :: 'T' :: 'E' :: 'N' :: 'T' :: ' ' :: t : List Char) = ['R', 'E', 'D', 'I', 'R', 'E', 'C', 'T', '_', 'T', 'O', '_', 'I', 'N', 'T', 'E', 'N', 'T', ' '] ++ t from rfl]
      rw [scanPlainGo_walk true "/goto".toList ['R', 'E', 'D', 'I', 'R', 'E', 'C', 'T', '_', 'T', 'O', '_', 'I', 'N', 'T', 'E', 'N', 'T', ' '] t (by
        intro p hp
        simp at hp
        interval_cases p <;> rfl)]
      exact scanPlainGo_nospace true "/goto".toList t hts t.length
    have h5 : scanPlain true "CALL_INTENT".toList ('R' :: 'E' :: 'D' :: 'I' :: 'R' :: 'E' :: 'C' :: 'T' :: '_' :: 'T' :: 'O' :: '_' :: 'I' :: 'N' :: 'T' :: 'E' :: 'N' :: 'T' :: ' ' :: t) = [] := by
      unfold scanPlain
      rw [show ('R' :: 'E' :: 'D' :: 'I' :: 'R' :: 'E' :: 'C' :: 'T' :: '_' :: 'T' :: 'O' :: '_' :: 'I' :: 'N' :: 'T' :: 'E' :: 'N' :: 'T' :: ' ' :: t : List Char) = ['R', 'E', 'D', 'I', 'R', 'E', 'C', 'T', '_', 'T', 'O', '_', 'I', 'N', 'T', 'E', 'N', 'T', ' '] ++ t from rfl]
      rw [scanPlainGo_walk true "CALL_INTENT".toList ['R', 'E', 'D', 'I', 'R', 'E', 'C', 'T', '_', 'T', 'O', '_', 'I', 'N', 'T', 'E', 'N', 'T', ' '] t (by
        intro p hp
        simp at hp
        interval_cases p <;> rfl)]
      exact scanPlainGo_nospace true "CALL_INTENT".toList t hts t.length
    rw [extract_redirect_from_text_vStr (String.mk ('R' :: 'E' :: 'D' :: 'I' :: 'R' :: 'E' :: 'C' :: 'T' :: '_' :: 'T' :: 'O' :: '_' :: 'I' :: 'N' :: 'T' :: 'E' :: 'N' :: 'T' :: ' ' :: t)) hne]
    rw [show (String.mk ('R' :: 'E' :: 'D' :: 'I' :: 'R' :: 'E' :: 'C' :: 'T' :: '_' :: 'T' :: 'O' :: '_' :: 'I' :: 'N' :: 'T' :: 'E' :: 'N' :: 'T' :: ' ' :: t)).toList = ('R' :: 'E' :: 'D' :: 'I' :: 'R' :: 'E' :: 'C' :: 'T' :: '_' :: 'T' :: 'O' :: '_' :: 'I' :: 'N' :: 'T' :: 'E' :: 'N' :: 'T' :: ' ' :: t : List Char) from rfl]
    rw [h1, h2, h3, h4, h5]
    try rfl
  · have hne : String.mk ('r' :: 'e' :: 'd' :: 'i' :: 'r' :: 'e' :: 'c' :: 't' :: '_' :: 't' :: 'o' :: '_' :: 'i' :: 'n' :: 't' :: 'e' :: 'n' :: 't' :: ' ' :: t) ≠ "" :=
      fun hh => List.noConfusion (congrArg String.data hh)
    have h1 : scanPlain false "REDIRECT_TO_INTENT".toList ('r' :: 'e' :: 'd' :: 'i' :: 'r' :: 'e' :: 'c' :: 't' :: '_' :: 't' :: 'o' :: '_' :: 'i' :: 'n' :: 't' :: 'e' :: 'n' :: 't' :: ' ' :: t) = [] := by
      unfold scanPlain
      rw [show ('r' :: 'e' :: 'd' :: 'i' :: 'r' :: 'e' :: 'c' :: 't' :: '_' :: 't' :: 'o' :: '_' :: 'i' :: 'n' :: 't' :: 'e' :: 'n' :: 't' :: ' ' :: t : List Char) = ['r', 'e', 'd', 'i', 'r', 'e', 'c', 't', '_', 't', 'o', '_', 'i', 'n', 't', 'e', 'n', 't', ' '] ++ t from rfl]
      rw [scanPlainGo_walk false "REDIRECT_TO_INTENT".toList ['r', 'e', 'd', 'i', 'r', 'e', 'c', 't', '_', 't', 'o', '_', 'i', 'n', 't', 'e', 'n', 't', ' '] t (by
        intro p hp
        simp at hp
        interval_cases p <;> rfl)]
      exact scanPlainGo_nospace false "REDIRECT_TO_INTENT".toList t hts t.length
    have h2 : scanBoundary true "GOTO".toList ('r' :: 'e' :: 'd' :: 'i' :: 'r' :: 'e' :: 'c' :: 't' :: '_' :: 't' :: 'o' :: '_' :: 'i' :: 'n' :: 't' :: 'e' :: 'n' :: 't' :: ' ' :: t) = [] := by
      have hm0 : matchAt true "GOTO".toList ('r' :: 'e' :: 'd' :: 'i' :: 'r' :: 'e' :: 'c' :: 't' :: '_' :: 't' :: 'o' :: '_' :: 'i' :: 'n' :: 't' :: 'e' :: 'n' :: 't' :: ' ' :: t) = none := rfl
      rw [scanBoundary_none hm0]
      rw [show ('r' :: 'e' :: 'd' :: 'i' :: 'r' :: 'e' :: 'c' :: 't' :: '_' :: 't' :: 'o' :: '_' :: 'i' :: 'n' :: 't' :: 'e' :: 'n' :: 't' :: ' ' :: t : List Char) = ['r', 'e', 'd', 'i', 'r', 'e', 'c', 't', '_', 't', 'o', '_', 'i', 'n', 't', 'e', 'n', 't', ' '] ++ t from rfl]
      rw [scanBoundaryGo_walk true "GOTO".toList ['r', 'e', 'd', 'i', 'r', 'e', 'c', 't', '_', 't', 'o', '_', 'i', 'n', 't', 'e', 'n', 't', ' '] t (by
        intro p hp hsp
        simp at hp
        interval_cases p <;>
          first
            | exact absurd hsp (by decide)
            | exact matchAt_none_of_nospace true "GOTO".toList t hts)]
      exact scanBoundaryGo_nospace true "GOTO".toList t hts t.length
    have h3 : scanPlain true "JUMP_TO".toList ('r' :: 'e' :: 'd' :: 'i' :: 'r' :: 'e' :: 'c' :: 't' :: '_' :: 't' :: 'o' :: '_' :: 'i' :: 'n' :: 't' :: 'e' :: 'n' :: 't' :: ' ' :: t) = [] := by
      unfold scanPlain
      rw [show ('r' :: 'e' :: 'd' :: 'i' :: 'r' :: 'e' :: 'c' :: 't' :: '_' :: 't' :: 'o' :: '_' :: 'i' :: 'n' :: 't' :: 'e' :: 'n' :: 't' :: ' ' :: t : List Char) = ['r', 'e', 'd', 'i', 'r', 'e', 'c', 't', '_', 't', 'o', '_', 'i', 'n', 't', 'e', 'n', 't', ' '] ++ t from rfl]
      rw [scanPlainGo_walk true "JUMP_TO".toList ['r', 'e', 'd', 'i', 'r', 'e', 'c', 't', '_', 't', 'o', '_', 'i', 'n', 't', 'e', 'n', 't', ' '] t (by
        intro p hp
        simp at hp
        interval_cases p <;> rfl)]
      exact scanPlainGo_nospace true "JUMP_TO".toList t hts t.length
    have h4 : scanPlain true "/goto".toList ('r' :: 'e' :: 'd' :: 'i' :: 'r' :: 'e' :: 'c' :: 't' :: '_' :: 't' :: 'o' :: '_' :: 'i' :: 'n' :: 't' :: 'e' :: 'n' :: 't' :: ' ' :: t) = [] := by
      unfold scanPlain
      rw [show ('r' :: 'e' :: 'd' :: 'i' :: 'r' :: 'e' :: 'c' :: 't' :: '_' :: 't' :: 'o' :: '_' :: 'i' :: 'n' :: 't' :: 'e' :: 'n' :: 't' :: ' ' :: t : List Char) = ['r', 'e', 'd', 'i', 'r', 'e', 'c', 't', '_', 't', 'o', '_', 'i', 'n', 't', 'e', 'n', 't', ' '] ++ t from rfl]
      rw [scanPlainGo_walk true "/goto".toList ['r', 'e', 'd', 'i', 'r', 'e', 'c', 't', '_', 't', 'o', '_', 'i', 'n', 't', 'e', 'n', 't', ' '] t (by
        intro p hp
        simp at hp
        interval_cases p <;> rfl)]
      exact scanPlainGo_nospace true "/goto".toList t hts t.length
    have h5 : scanPlain true "CALL_INTENT".toList ('r' :: 'e' :: 'd' :: 'i' :: 'r' :: 'e' :: 'c' :: 't' :: '_' :: 't' :: 'o' :: '_' :: 'i' :: 'n' :: 't' :: 'e' :: 'n' :: 't' :: ' ' :: t) = [] := by
      unfold scanPlain
      rw [show ('r' :: 'e' :: 'd' :: 'i' :: 'r' :: 'e' :: 'c' :: 't' :: '_' :: 't' :: 'o' :: '_' :: 'i' :: 'n' :: 't' :: 'e' :: 'n' :: 't' :: ' ' :: t : List Char) = ['r', 'e', 'd', 'i', 'r', 'e', 'c', 't', '_', 't', 'o', '_', 'i', 'n', 't', 'e', 'n', 't', ' '] ++ t from rfl]
      rw [scanPlainGo_walk true "CALL_INTENT".toList ['r', 'e', 'd', 'i', 'r', 'e', 'c', 't', '_', 't', 'o', '_', 'i', 'n', 't', 'e', 'n', 't', ' '] t (by
        intro p hp
        simp at hp
        interval_cases p <;> rfl)]
      exact scanPlainGo_nospace true "CALL_INTENT".toList t hts t.length
    rw [extract_redirect_from_text_vStr (String.mk ('r' :: 'e' :: 'd' :: 'i' :: 'r' :: 'e' :: 'c' :: 't' :: '_' :: 't' :: 'o' :: '_' :: 'i' :: 'n' :: 't' :: 'e' :: 'n' :: 't' :: ' ' :: t)) hne]
    rw [show (String.mk ('r' :: 'e' :: 'd' :: 'i' :: 'r' :: 'e' :: 'c' :: 't' :: '_' :: 't' :: 'o' :: '_' :: 'i' :: 'n' :: 't' :: 'e' :: 'n' :: 't' :: ' ' :: t)).toList = ('r' :: 'e' :: 'd' :: 'i' :: 'r' :: 'e' :: 'c' :: 't' :: '_' :: 't' :: 'o' :: '_' :: 'i' :: 'n' :: 't' :: 'e' :: 'n' :: 't' :: ' ' :: t : List Char) from rfl]
    rw [h1, h2, h3, h4, h5]
    try rfl

/-- Witness for C5: at the concrete target `X` the mixed-case `gOtO` is
extracted and the lowercase `redirect_to_intent` is not. -/
theorem redirect_token_case_sensitivity_witness :
    extract_redirect_from_text
        (PyVal.vStr (String.mk ('g' :: 'O' :: 't' :: 'O' :: ' ' :: ['X'])))
      = .ok [String.mk ['X']]
    ∧ extract_redirect_from_text
        (PyVal.vStr (String.mk ('r' :: 'e' :: 'd' :: 'i' :: 'r' :: 'e' :: 'c' :: 't' :: '_' :: 't' :: 'o' :: '_' :: 'i' :: 'n' :: 't' :: 'e' :: 'n' :: 't' :: ' ' :: ['X'])))
      = .ok [] :=
  ⟨(redirect_token_case_sensitivity ['X'] (by decide) (by decide)).1,
   (redirect_token_case_sensitivity ['X'] (by decide) (by decide)).2.2.2.2.2⟩

end Json2Mermaid
